import Mathlib

/-!
Shallow embedding of the HKE9 nine-card poker server (src/server/score.js and
the submission / dealer-pick logic of src/server/server.js) together with
proofs settling the specification claims.

Cards mirror the JS objects `{r, s, j}`: `r` is the numeric rank (2..14 for
standard cards, 16/15 for the big/small joker), `s` the suit letter
("S","H","D","C") or "J" for a joker, and `j` the joker marker ("BJ"/"SJ",
empty for standard cards).
-/

namespace HKE9

structure Card where
  r : Int
  s : String
  j : String := ""
deriving DecidableEq, Repr, Inhabited

/-- The four real suits, in the iteration order of `score.js`. -/
def SUITS : List String := ["S", "H", "D", "C"]

/-- The standard ranks 2..14, in the iteration order of `score.js`. -/
def rankList : List Int := [2, 3, 4, 5, 6, 7, 8, 9, 10, 11, 12, 13, 14]

/-- `cardKey` of score.js: joker marker for jokers, rank string + suit letter otherwise. -/
def cardKey (c : Card) : String :=
  if c.s = "J" then c.j else toString c.r ++ c.s

/-- An evaluation `{cat, t, name, usedJoker}` as produced by the hand evaluator. -/
structure Ev where
  cat : Int
  t : List Int
  name : String
  usedJoker : Bool := false
deriving DecidableEq, Repr

/-- Tiebreak comparison of `compareEval`: the JS loop compares `t[i] ?? 0`
element-wise up to the longer length.  All tiebreak sequences produced by the
evaluators have length ≤ 3, for which the loop is exactly the lexicographic
comparison of the three zero-padded components. -/
def compareT (x y : List Int) : Int :=
  if x.getD 0 0 ≠ y.getD 0 0 then x.getD 0 0 - y.getD 0 0
  else if x.getD 1 0 ≠ y.getD 1 0 then x.getD 1 0 - y.getD 1 0
  else if x.getD 2 0 ≠ y.getD 2 0 then x.getD 2 0 - y.getD 2 0
  else 0

/-- `compareEval` of score.js: category first, then the tiebreak sequence. -/
def compareEval (a b : Ev) : Int :=
  if a.cat ≠ b.cat then a.cat - b.cat else compareT a.t b.t

/-- Descending sort used for `ranks` (`.sort((a, b) => b - a)` in JS). -/
def sortDesc (l : List Int) : List Int := l.insertionSort (fun a b => a ≥ b)

/-- Ascending sort used for `sortedAsc` (`.sort((a, b) => a - b)` in JS). -/
def sortAsc (l : List Int) : List Int := l.insertionSort (fun a b => a ≤ b)

/-- `eval2NoJoker`: a pair when both ranks agree, high card otherwise. -/
def eval2NoJoker (cards : List Card) : Ev :=
  let ranks := sortDesc (cards.map (·.r))
  let uniq := ranks.dedup
  if uniq.length = 1 then { cat := 1, t := [uniq.getD 0 0], name := "一對" }
  else { cat := 0, t := ranks, name := "高牌" }

/-- Core of `eval3NoJoker`, as a function of the descending-sorted ranks and
the suit-uniformity flag (the only data the JS body consumes). -/
def eval3Core (ranks : List Int) (isFlush : Bool) : Ev :=
  let uniq := ranks.dedup
  let sortedAsc := sortAsc ranks
  let maxRank := match ranks with | [] => 0 | x :: xs => xs.foldl max x
  let sh :=
    if uniq.length = 3 then
      if sortedAsc.getD 2 0 - sortedAsc.getD 1 0 = 1 ∧
          sortedAsc.getD 1 0 - sortedAsc.getD 0 0 = 1 then
        (true, if sortedAsc.getD 2 0 = 14 then (15 : Int) else sortedAsc.getD 2 0)
      else if sortedAsc.getD 0 0 = 2 ∧ sortedAsc.getD 1 0 = 3 ∧ sortedAsc.getD 2 0 = 14 then
        (true, (14 : Int))
      else (false, maxRank)
    else (false, maxRank)
  let isStraight := sh.1
  let straightHigh := sh.2
  if isStraight ∧ isFlush then { cat := 5, t := [straightHigh], name := "同花順" }
  else if uniq.length = 1 then { cat := 4, t := [uniq.getD 0 0], name := "三條" }
  else if isStraight then { cat := 3, t := [straightHigh], name := "順子" }
  else if uniq.length = 2 then
    let u0 := uniq.getD 0 0
    let u1 := uniq.getD 1 0
    let pk := if ranks.count u0 = 2 then (u0, u1) else (u1, u0)
    { cat := 1, t := [pk.1, pk.2], name := "一對" }
  else { cat := 0, t := ranks, name := "高牌" }

/-- Suit uniformity: `suits.every((s) => s === suits[0])`. -/
def isFlushOf (suits : List String) : Bool :=
  match suits with
  | [] => true
  | s0 :: _ => suits.all (fun s => s = s0)

/-- `eval3NoJoker` of score.js. -/
def eval3NoJoker (cards : List Card) : Ev :=
  eval3Core (sortDesc (cards.map (·.r))) (isFlushOf (cards.map (·.s)))

/-- The sentinel best value `{cat: -1, t: [], name: ''}` used by the joker search. -/
def sentinelEv : Ev := { cat := -1, t := [], name := "" }

/-- The best-so-far fold of the joker substitution search. -/
def bestFold (f : List Card → Ev) (hands : List (List Card)) (b : Ev) : Ev :=
  hands.foldl (fun best h => if compareEval (f h) best > 0 then f h else best) b

/-- The candidate replacement cards: every rank/suit combination whose key is
not already taken by a real card of the hand.  Iteration order is suits
outermost, ranks innermost, exactly as in score.js. -/
def fullCandidates (base : List Card) : List Card :=
  SUITS.flatMap (fun s =>
    rankList.filterMap (fun r =>
      if (toString r ++ s) ∈ base.map cardKey then none
      else some { r := r, s := s }))

/-- The completed hands tried when the hand holds one joker. -/
def oneJokerHands (base full : List Card) : List (List Card) :=
  full.map (fun rep => base ++ [rep])

/-- The completed hands tried when the hand holds two jokers: all index pairs
`i < j` of the candidate list. -/
def twoJokerHands (base : List Card) : List Card → List (List Card)
  | [] => []
  | x :: xs => xs.map (fun y => base ++ [x, y]) ++ twoJokerHands base xs

/-- The completed hands the joker search tries, by joker count. -/
def subHands (base full : List Card) (jokers : Nat) : List (List Card) :=
  if jokers = 1 then oneJokerHands base full else twoJokerHands base full

/-- `eval2` of score.js: two-card evaluation with joker substitution. -/
def eval2 (cards : List Card) : Ev :=
  let jokers := (cards.filter (fun c => c.s = "J")).length
  if jokers = 0 then eval2NoJoker cards
  else
    let base := cards.filter (fun c => ¬ c.s = "J")
    let hands := subHands base (fullCandidates base) jokers
    let b := bestFold eval2NoJoker hands sentinelEv
    { cat := b.cat, t := b.t, name := b.name, usedJoker := true }

/-- `eval3` of score.js: three-card evaluation with joker substitution. -/
def eval3 (cards : List Card) : Ev :=
  let jokers := (cards.filter (fun c => c.s = "J")).length
  if jokers = 0 then eval3NoJoker cards
  else
    let base := cards.filter (fun c => ¬ c.s = "J")
    let hands := subHands base (fullCandidates base) jokers
    let b := bestFold eval3NoJoker hands sentinelEv
    { cat := b.cat, t := b.t, name := b.name, usedJoker := true }

/-- `headWinPoints`: the pair rank for a head pair with rank in 2..14, else 1. -/
def headWinPoints (e : Ev) : Int :=
  if e.cat = 1 then
    let r := e.t.getD 0 0
    if 2 ≤ r ∧ r ≤ 14 then r else 1
  else 1

/-- `midWinPoints`: 10 for a straight flush, 6 for three of a kind, else 1. -/
def midWinPoints (e : Ev) : Int :=
  if e.cat = 5 then 10 else if e.cat = 4 then 6 else 1

/-- `tailWinPoints`: 5 for a straight flush, 3 for three of a kind, else 1. -/
def tailWinPoints (e : Ev) : Int :=
  if e.cat = 5 then 5 else if e.cat = 4 then 3 else 1

/-- `headSectionScore`: dealer wins ties; the winner's win-value is transferred. -/
def headSectionScore (p d : Ev) : Int :=
  if compareEval p d > 0 then headWinPoints p else -(headWinPoints d)

def midSectionScore (p d : Ev) : Int :=
  if compareEval p d > 0 then midWinPoints p else -(midWinPoints d)

def tailSectionScore (p d : Ev) : Int :=
  if compareEval p d > 0 then tailWinPoints p else -(tailWinPoints d)

/-- `strength2`: head strength scalar (category, then two tiebreak values). -/
def strength2 (cards : List Card) : Int :=
  let e := eval2 cards
  e.cat * 1000000000 + e.t.getD 0 0 * 1000000 + e.t.getD 1 0 * 1000

/-- `strength3`: mid/tail strength scalar (category, then three tiebreak values). -/
def strength3 (cards : List Card) : Int :=
  let e := eval3 cards
  e.cat * 1000000000 + e.t.getD 0 0 * 1000000 + e.t.getD 1 0 * 1000 + e.t.getD 2 0

structure FoulRes where
  foul : Bool
  msg : String := ""
deriving DecidableEq, Repr

/-- `detectFoul`: head strength must not exceed mid, mid must not exceed tail.
(The JS `isAllFilled` null-check is vacuous here since cards are typed.) -/
def detectFoul (head mid tail : List Card) : FoulRes :=
  let sh := strength2 head
  let sm := strength3 mid
  let st := strength3 tail
  if sh > sm then { foul := true, msg := "擺烏龍：頭墩大於中墩" }
  else if sm > st then { foul := true, msg := "擺烏龍：中墩大於尾墩" }
  else { foul := false }

/-- `compareSelectCard`: jokers count as rank 100, then the suit order map
`{S: 4, H: 3, D: 2, C: 1, J: 5}` (missing suits default to 0). -/
def compareSelectCard (a b : Card) : Int :=
  let suitOrder : String → Int := fun s =>
    if s = "S" then 4 else if s = "H" then 3 else if s = "D" then 2
    else if s = "C" then 1 else if s = "J" then 5 else 0
  let ra := if a.s = "J" then 100 else a.r
  let rb := if b.s = "J" then 100 else b.r
  if ra ≠ rb then ra - rb else suitOrder a.s - suitOrder b.s

/-- One player's submission for a round (all fields present and typed; the
server's `validateSubmission` guarantees this shape before settlement runs). -/
structure Submission where
  dealerCard : Card
  head : List Card
  mid : List Card
  tail : List Card
  report : String := "none"
deriving DecidableEq, Repr

/-- Association-list lookup standing in for JS object property access. -/
def alookup {α : Type} : List (String × α) → String → Option α
  | [], _ => none
  | (k, v) :: rest, key => if k = key then some v else alookup rest key

/-- `computeDealerIdFromSubmissions`: running argmax over the submission list;
a strictly larger select card replaces the best, and on an exactly-equal
comparison the larger id string wins.  (The JS refetches the best card from
the map; carrying it in the accumulator is the same since object keys are
unique.) -/
def computeDealerIdFromSubmissions (subs : List (String × Submission)) : Option String :=
  (subs.foldl (fun best p =>
    match best with
    | none => some (p.1, p.2.dealerCard)
    | some (bid, bcard) =>
      let cmp := compareSelectCard p.2.dealerCard bcard
      if cmp > 0 then some (p.1, p.2.dealerCard)
      else if cmp = 0 ∧ bid < p.1 then some (p.1, p.2.dealerCard)
      else some (bid, bcard)) none).map (·.1)

def isRed (s : String) : Bool := s = "H" ∨ s = "D"

def isBlack (s : String) : Bool := s = "S" ∨ s = "C"

/-- `canBeFlush2`: at most one real card, or both real cards share a suit. -/
def canBeFlush2 (cards : List Card) : Bool :=
  let nonJ := cards.filter (fun c => ¬ c.s = "J")
  if nonJ.length ≤ 1 then true
  else nonJ.all (fun c => c.s = (nonJ.headD c).s)

/-- `canBeStraight2`: any joker or an irregular count passes; two real cards
must be adjacent in rank or be the 14/2 wrap. -/
def canBeStraight2 (cards : List Card) : Bool :=
  let nonJ := cards.filter (fun c => ¬ c.s = "J")
  let jokers := (cards.filter (fun c => c.s = "J")).length
  if jokers ≥ 1 then true
  else if nonJ.length ≠ 2 then true
  else
    let a := (nonJ.getD 0 default).r
    let b := (nonJ.getD 1 default).r
    let hi := max a b
    let lo := min a b
    if hi - lo = 1 then true
    else if hi = 14 ∧ lo = 2 then true
    else false

/-- Maximum of a list, `Math.max(...l)` style (callers guarantee nonempty). -/
def maxList (l : List Int) : Int :=
  match l with | [] => 0 | x :: xs => xs.foldl max x

/-- Minimum of a list, `Math.min(...l)` style (callers guarantee nonempty). -/
def minList (l : List Int) : Int :=
  match l with | [] => 0 | x :: xs => xs.foldl min x

/-- `canMakeLength9Straight` of `validateSpecial`: the real ranks must be
distinct and the gaps of their span (Ace high, or Ace re-read as 1) must be
coverable by the jokers present among the given cards. -/
def canMakeLength9Straight (cards : List Card) (requireSameColor : Option String) : Bool :=
  let straightJokers := (cards.filter (fun c => c.s = "J")).length
  let straightNonJ := cards.filter (fun c => ¬ c.s = "J")
  if requireSameColor = some "red" ∧ straightNonJ.any (fun x => ¬ isRed x.s) then false
  else if requireSameColor = some "black" ∧ straightNonJ.any (fun x => ¬ isBlack x.s) then false
  else
    let ranks := straightNonJ.map (·.r)
    if ranks.dedup.length ≠ ranks.length then false
    else if ranks.length ≤ 1 then true
    else
      let need14 := maxList ranks - minList ranks + 1 - (ranks.length : Int)
      if need14 ≤ straightJokers then true
      else if (14 : Int) ∈ ranks then
        let ranks1 := ranks.map (fun r => if r = 14 then 1 else r)
        let need1 := maxList ranks1 - minList ranks1 + 1 - (ranks1.length : Int)
        decide (need1 ≤ straightJokers)
      else false

structure SectionEvals where
  head : Ev
  mid : Ev
  tail : Ev
deriving DecidableEq, Repr

structure SpecialRes where
  ok : Bool
  bonus : Int
deriving DecidableEq, Repr

/-- JS `code || 'none'` for the report string. -/
def reportOr (code : String) : String := if code = "" then "none" else code

/-- The fixed bonus table of `validateSpecial`. -/
def bonusOf (c : String) : Int :=
  if c = "allRed" then 5 else if c = "allBlack" then 5
  else if c = "threeSnake" then 3 else if c = "fourKind" then 10
  else if c = "fourPairs" then 10 else if c = "mixedDragon" then 15
  else if c = "threeStraightFlush" then 25 else if c = "twoFourKind" then 30
  else if c = "greenDragon" then 100 else if c = "noHand" then 3 else 0

/-- All index triples `i < j < k` of a list, as in the `noHand` triple loop. -/
def tripleHands : List Card → List (List Card)
  | [] => []
  | x :: xs =>
    ((twoJokerHands [] xs).map (fun p => x :: p)) ++ tripleHands xs

/-- `canMakeFourKindCount`: some rank count plus the jokers reaches 4, or
there are at least four jokers. -/
def canMakeFourKindCount (nonJ : List Card) (jokers : Int) : Bool :=
  ((nonJ.map (·.r)).dedup.any (fun r => ((nonJ.map (·.r)).count r : Int) + jokers ≥ 4)) ∨
    jokers ≥ 4

/-- The greedy loop of `canMakeTwoFourKind`, including the post-loop joker
fallbacks that run when the loop exhausts without an early return. -/
def twoFourKindGo (counts : Int → Int) : List Int → Int → Int → Bool
  | [], j, made =>
    if made = 1 ∧ j ≥ 4 then true
    else if made = 0 ∧ j ≥ 8 then true
    else false
  | r :: rest, j, made =>
    let need := max 0 (4 - counts r)
    if need ≤ j then
      if made + 1 ≥ 2 then true
      else twoFourKindGo counts rest (j - need) (made + 1)
    else twoFourKindGo counts rest j made

/-- `canMakeTwoFourKind`: greedily complete four-of-a-kinds over the distinct
ranks sorted by descending count (stable over the ascending key order of the
JS counts object), then fall back on leftover jokers. -/
def canMakeTwoFourKind (nonJ : List Card) (jokers : Int) : Bool :=
  let ranks := (nonJ.map (·.r)).dedup
  let counts : Int → Int := fun r => ((nonJ.map (·.r)).count r : Int)
  let sorted := (sortAsc ranks).insertionSort (fun a b => counts a ≥ counts b)
  twoFourKindGo counts sorted jokers 0

/-- `canMakeFourPairs`: pairs from counts, then jokers pair up singles, then
leftover jokers pair among themselves. -/
def canMakeFourPairs (nonJ : List Card) (jokers : Int) : Bool :=
  let rs := nonJ.map (·.r)
  let pairs0 := ((rs.dedup.map (fun r => (rs.count r : Int) / 2)).foldl (· + ·) 0)
  let singles := ((rs.dedup.map (fun r => (rs.count r : Int) % 2)).foldl (· + ·) 0)
  let useToPairSingles := min jokers singles
  let pairs1 := pairs0 + useToPairSingles
  let jLeft := jokers - useToPairSingles
  let pairs2 := pairs1 + jLeft / 2
  pairs2 ≥ 4

/-- `validateSpecial` of score.js.  `all9Cards` is the dealer-selection card
plus the arranged sections; note that the dragon patterns inspect only the
eight arranged cards (`eightCards`). -/
def validateSpecial (code : String) (all9Cards : List Card) (sub : Submission)
    (evals : SectionEvals) : SpecialRes :=
  let c := reportOr code
  if c = "none" then { ok := true, bonus := 0 }
  else
    let all := all9Cards
    let jokers := ((all.filter (fun x => x.s = "J")).length : Int)
    let nonJ := all.filter (fun x => ¬ x.s = "J")
    let head := sub.head
    let mid := sub.mid
    let tail := sub.tail
    let eMid := evals.mid
    let eTail := evals.tail
    let eightCards := head ++ mid ++ tail
    let eightNonJ := eightCards.filter (fun x => ¬ x.s = "J")
    let ok :=
      if c = "allRed" then eightNonJ.all (fun x => isRed x.s)
      else if c = "allBlack" then eightNonJ.all (fun x => isBlack x.s)
      else if c = "threeSnake" then
        canBeStraight2 head ∧ eMid.cat ≥ 3 ∧ eTail.cat ≥ 3
      else if c = "threeStraightFlush" then
        canBeStraight2 head ∧ canBeFlush2 head ∧ eMid.cat = 5 ∧ eTail.cat = 5
      else if c = "noHand" then
        let eight := eightCards
        if eight.any (fun x => x.s = "J") then false
        else
          let ranks := eight.map (·.r)
          if ranks.dedup.length ≠ ranks.length then false
          else ¬ (tripleHands eight).any (fun h => (eval3NoJoker h).cat > 0)
      else if c = "fourKind" then canMakeFourKindCount nonJ jokers
      else if c = "twoFourKind" then canMakeTwoFourKind nonJ jokers
      else if c = "fourPairs" then canMakeFourPairs nonJ jokers
      else if c = "mixedDragon" then canMakeLength9Straight eightCards none
      else if c = "greenDragon" then
        canMakeLength9Straight eightCards (some "red") ∨
          canMakeLength9Straight eightCards (some "black")
      else false
    { ok := ok, bonus := if ok then bonusOf c else 0 }

/-- The section evaluations computed once per submission (`evalMap`). -/
def evalOf (sub : Submission) : SectionEvals :=
  ⟨eval2 sub.head, eval3 sub.mid, eval3 sub.tail⟩

/-- The nine cards `[sub.dealerCard, ...head, ...mid, ...tail]`. -/
def all9Of (sub : Submission) : List Card :=
  sub.dealerCard :: (sub.head ++ sub.mid ++ sub.tail)

/-- The report validation computed once per submission (`reportMap`). -/
def reportOf (sub : Submission) : SpecialRes :=
  validateSpecial sub.report (all9Of sub) sub (evalOf sub)

/-- The foul detection computed once per submission (`foulMap`). -/
def foulOf (sub : Submission) : FoulRes :=
  detectFoul sub.head sub.mid sub.tail

/-- `isReportValid` of the settlement: a non-`none` code that validated with
positive bonus. -/
def validReport (sub : Submission) : Bool :=
  if reportOr sub.report ≠ "none" ∧ (reportOf sub).ok = true ∧ (reportOf sub).bonus > 0
  then true else false

/-- Membership in `wulongSet`: fouled without a valid report, or claimed a
report that did not validate. -/
def isWulong (sub : Submission) : Bool :=
  if (validReport sub = false ∧ (foulOf sub).foul = true) ∨
      (reportOr sub.report ≠ "none" ∧ validReport sub = false)
  then true else false

structure PlayerResult where
  total : Int
  note : String
  perHead : Int
  perMid : Int
  perTail : Int
  report : String
  nameHead : String
  nameMid : String
  nameTail : String
  dealerCard : Card
deriving DecidableEq, Repr

/-- Assembles one row of the `results` object. -/
def baseResult (sub : Submission) (se : SectionEvals) (total : Int) (note : String)
    (ph pm pt : Int) : PlayerResult :=
  ⟨total, note, ph, pm, pt, reportOr sub.report,
    se.head.name, se.mid.name, se.tail.name, sub.dealerCard⟩

/-- The row of a non-dealer whose own report validated: just the bonus. -/
def reportEntryValid (sub : Submission) : PlayerResult :=
  baseResult sub (evalOf sub) (reportOf sub).bonus
    ("報到+" ++ toString (reportOf sub).bonus ++ "（本局只計報到）") 0 0 0

/-- The row of a non-dealer charged the dealer's report bonus. -/
def reportEntryCharged (bonus : Int) (sub : Submission) : PlayerResult :=
  baseResult sub (evalOf sub) (-bonus) ("被莊家報到-" ++ toString bonus) 0 0 0

/-- `noteParts.join('｜')`. -/
def noteFromParts (parts : List String) : String := String.intercalate "｜" parts

/-- The trailing `報到不符` note suffix of the main settlement loop. -/
def addMismatch (note : String) (isDealer : Bool) (cond : Bool) : String :=
  if cond then
    note ++ (if note ≠ "" then "｜" else "") ++
      (if isDealer then "報到不符" else "報到不符→擺烏龍")
  else note

/-- The per-section commentary of the normal-scoring branch. -/
def scoringNotes (se de : SectionEvals) (ph pm pt : Int) : List String :=
  (if ¬ ph = 0 ∧ (se.head.cat = 1 ∨ de.head.cat = 1) then
    (if ph > 0 ∧ se.head.cat = 1 then ["頭墩對子+" ++ toString (headWinPoints se.head)] else []) ++
      (if ph < 0 ∧ de.head.cat = 1 then ["頭墩對子-" ++ toString (headWinPoints de.head)] else [])
   else []) ++
  (if ¬ pm = 0 ∧ (se.mid.cat = 5 ∨ se.mid.cat = 4 ∨ de.mid.cat = 5 ∨ de.mid.cat = 4) then
    (if pm > 0 then
      (if se.mid.cat = 5 then ["中墩同花順+10"] else if se.mid.cat = 4 then ["中墩三條+6"] else [])
     else
      (if de.mid.cat = 5 then ["中墩同花順-10"] else if de.mid.cat = 4 then ["中墩三條-6"] else []))
   else []) ++
  (if ¬ pt = 0 ∧ (se.tail.cat = 5 ∨ se.tail.cat = 4 ∨ de.tail.cat = 5 ∨ de.tail.cat = 4) then
    (if pt > 0 then
      (if se.tail.cat = 5 then ["尾墩同花順+5"] else if se.tail.cat = 4 then ["尾墩三條+3"] else [])
     else
      (if de.tail.cat = 5 then ["尾墩同花順-5"] else if de.tail.cat = 4 then ["尾墩三條-3"] else []))
   else [])

/-- One iteration of the main settlement loop.  Returns the player's result
row together with the amount subtracted from / added to `dealerNet` by this
iteration; `none` models the JS `TypeError` when a branch dereferences a
missing dealer evaluation (dealer id not among the submissions). -/
def settleOne (dealerId : String) (dealerEval : Option SectionEvals) (wulongDealer : Bool)
    (id : String) (sub : Submission) : Option (PlayerResult × Int) :=
  let se := evalOf sub
  let rc := reportOr sub.report
  let sp := reportOf sub
  if id ≠ dealerId ∧ isWulong sub = true then
    if validReport sub = true then
      some (reportEntryValid sub, -sp.bonus)
    else
      match dealerEval with
      | none => none
      | some de =>
        let ph := -(headWinPoints de.head)
        let pm := -(midWinPoints de.mid)
        let pt := -(tailWinPoints de.tail)
        let total := ph + pm + pt
        let note :=
          if rc ≠ "none" ∧ ¬ (sp.ok = true ∧ sp.bonus > 0) then "報到不符→擺烏龍（本局三墩全輸）"
          else "擺烏龍（本局三墩全輸）"
        some (baseResult sub se total note ph pm pt, -total)
  else if id ≠ dealerId ∧ validReport sub = true then
    some (reportEntryValid sub, -sp.bonus)
  else if id ≠ dealerId then
    if wulongDealer then
      let ph := headWinPoints se.head
      let pm := midWinPoints se.mid
      let pt := tailWinPoints se.tail
      let total := ph + pm + pt
      let note := addMismatch (noteFromParts ["莊家失誤：三墩全勝"]) false
        (if rc ≠ "none" ∧ ¬ (sp.ok = true ∧ sp.bonus > 0) then true else false)
      some (baseResult sub se total note ph pm pt, -total)
    else
      match dealerEval with
      | none => none
      | some de =>
        let ph := headSectionScore se.head de.head
        let pm := midSectionScore se.mid de.mid
        let pt := tailSectionScore se.tail de.tail
        let total := ph + pm + pt
        let note := addMismatch (noteFromParts (scoringNotes se de ph pm pt)) false
          (if rc ≠ "none" ∧ ¬ (sp.ok = true ∧ sp.bonus > 0) then true else false)
        some (baseResult sub se total note ph pm pt, -total)
  else
    let note := addMismatch (noteFromParts []) true
      (if rc ≠ "none" ∧ ¬ (sp.ok = true ∧ sp.bonus > 0) then true else false)
    some (baseResult sub se 0 note 0 0 0, 0)

/-- The main settlement loop over all submissions, accumulating `dealerNet`
as the sum of the per-iteration contributions. -/
def settleLoop (dealerId : String) (dealerEval : Option SectionEvals) (wulongDealer : Bool) :
    List (String × Submission) → Option (List (String × PlayerResult) × Int)
  | [] => some ([], 0)
  | (id, sub) :: rest => do
    let one ← settleOne dealerId dealerEval wulongDealer id sub
    let restR ← settleLoop dealerId dealerEval wulongDealer rest
    some ((id, one.1) :: restR.1, one.2 + restR.2)

/-- The dealer's row after the final overwrite: total becomes `dealerNet`
and the dealer note suffix is appended. -/
def patchedRow (dealerNet : Int) (wulongDealer : Bool) (r : PlayerResult) : PlayerResult :=
  let extra := if wulongDealer then "擺烏龍（莊家全輸）" else "莊家淨值"
  let note2 := (if r.note ≠ "" then r.note ++ "｜" else "") ++ extra
  { r with total := dealerNet, note := note2 }

/-- The final overwrite of the dealer's row with `dealerNet` and the dealer
note suffix (a no-op when the dealer has no row). -/
def patchDealer (dealerId : String) (dealerNet : Int) (wulongDealer : Bool) :
    List (String × PlayerResult) → List (String × PlayerResult)
  | [] => []
  | (k, r) :: rest =>
    if k = dealerId then (k, patchedRow dealerNet wulongDealer r) :: rest
    else (k, r) :: patchDealer dealerId dealerNet wulongDealer rest

/-- The loop of the dealer-report branch when some non-dealer report also
validated: rows for the non-dealers, plus `(dealerNet, affectedCount)`. -/
def reportLoop (dealerId : String) (bonus : Int) :
    List (String × Submission) → (List (String × PlayerResult) × Int × Int)
  | [] => ([], 0, 0)
  | (id, sub) :: rest =>
    let r := reportLoop dealerId bonus rest
    if id = dealerId then r
    else if validReport sub = true then
      ((id, reportEntryValid sub) :: r.1, r.2.1 - (reportOf sub).bonus, r.2.2)
    else
      ((id, reportEntryCharged bonus sub) :: r.1, r.2.1 + bonus, r.2.2 + 1)

structure RoundResult where
  dealerId : String
  results : List (String × PlayerResult)
deriving DecidableEq, Repr

/-- The non-dealer-report settlement path (also taken when the dealer id has
no submission): main loop followed by the dealer-row overwrite. -/
def mainSettle (subs : List (String × Submission)) (dealerId : String)
    (dealerSub : Option Submission) : Option RoundResult :=
  let dealerEval := dealerSub.map evalOf
  let wulongDealer := match dealerSub with | some ds => isWulong ds | none => false
  match settleLoop dealerId dealerEval wulongDealer subs with
  | none => none
  | some (results, net) => some ⟨dealerId, patchDealer dealerId net wulongDealer results⟩

/-- The whole-round results when the dealer's report validates and no
non-dealer report does: the dealer nets bonus × (n−1), everyone else −bonus. -/
def dealerReportSweep (subs : List (String × Submission)) (dealerId : String)
    (bonus : Int) : RoundResult :=
  ⟨dealerId, subs.map (fun p =>
    (p.1,
      if p.1 = dealerId then
        baseResult p.2 (evalOf p.2) (bonus * ((subs.length : Int) - 1))
          ("莊家報到+" ++ toString bonus ++ "×" ++ toString ((subs.length : Int) - 1) ++
            "（本局只計報到）")
          0 0 0
      else reportEntryCharged bonus p.2))⟩

/-- The whole-round results when both the dealer's and some non-dealer's
report validate: validated non-dealers are paid their own bonus, the rest
are charged the dealer's, and the dealer's row carries the running net. -/
def dealerReportMixed (subs : List (String × Submission)) (dealerId : String)
    (ds : Submission) (bonus : Int) : RoundResult :=
  let r := reportLoop dealerId bonus subs
  ⟨dealerId,
    r.1 ++ [(dealerId, baseResult ds (evalOf ds) r.2.1
      ("莊家報到+" ++ toString bonus ++ "×" ++ toString r.2.2 ++
        "（已扣除閒家報到；本局只計報到）") 0 0 0)]⟩

/-- Whether some non-dealer's report claim validates with positive bonus. -/
def hasNonDealerReportOk (subs : List (String × Submission)) (dealerId : String) : Bool :=
  subs.any (fun p => if p.1 ≠ dealerId ∧ validReport p.2 = true then true else false)

/-- Settlement once the dealer id is fixed: the dealer-report branches when
the dealer's own report validates, the main loop otherwise. -/
def settleWithDealer (subs : List (String × Submission)) (dealerId : String) :
    Option RoundResult :=
  match alookup subs dealerId with
  | some ds =>
    if validReport ds then
      if hasNonDealerReportOk subs dealerId = false then
        some (dealerReportSweep subs dealerId (reportOf ds).bonus)
      else some (dealerReportMixed subs dealerId ds (reportOf ds).bonus)
    else mainSettle subs dealerId (some ds)
  | none => mainSettle subs dealerId none

/-- `computeRoundResult` of score.js.  A `none` result models the JS throws
(`No submissions`, `Unable to determine dealer`) and the `TypeError` reached
when an overridden dealer id has no submission but a branch needs the
dealer's evaluations. -/
def computeRoundResult (subs : List (String × Submission)) (dealerOverride : Option String) :
    Option RoundResult :=
  if subs.isEmpty then none
  else
    match (match dealerOverride with
      | some d => some d
      | none => computeDealerIdFromSubmissions subs) with
    | none => none
    | some dealerId => settleWithDealer subs dealerId

/-! ### Server-side submission handling (src/server/server.js) -/

/-- `normalizeCard` of server.js: jokers must carry a valid marker (rank is
recomputed), standard cards need an integral rank 2..14 and a real suit.
`none` models the JS `null` for malformed input. -/
def normalizeCard (c : Card) : Option Card :=
  if c.s = "J" then
    if c.j = "BJ" ∨ c.j = "SJ" then
      some { s := "J", j := c.j, r := if c.j = "BJ" then 16 else 15 }
    else none
  else
    if 2 ≤ c.r ∧ c.r ≤ 14 ∧ c.s ∈ SUITS then some { r := c.r, s := c.s } else none

/-- A raw `submit` payload: every field may be missing or malformed. -/
structure RawSubmission where
  dealerCard : Option Card
  head : List (Option Card)
  mid : List (Option Card)
  tail : List (Option Card)
deriving DecidableEq, Repr

/-- Result of `validateSubmission`: a rejection message, or the normalized
pieces of an accepted submission. -/
inductive VRes where
  | fail (msg : String)
  | ok (dealerCard : Card) (head mid tail : List Card)
deriving DecidableEq, Repr

/-- `validateSubmission` of server.js. -/
def validateSubmission (cards9 : Option (List Card)) (sub : RawSubmission) : VRes :=
  match cards9 with
  | none => .fail "尚未發牌"
  | some c9 =>
    if c9.length ≠ 9 then .fail "尚未發牌"
    else
      let dealerCard := sub.dealerCard.bind normalizeCard
      let head := sub.head.map (fun o => o.bind normalizeCard)
      let mid := sub.mid.map (fun o => o.bind normalizeCard)
      let tail := sub.tail.map (fun o => o.bind normalizeCard)
      match dealerCard with
      | none => .fail "請選擇選莊牌"
      | some dc =>
        if ¬ (head.length = 2 ∧ mid.length = 3 ∧ tail.length = 3) then .fail "牌組長度不符"
        else if (head ++ mid ++ tail).any (fun c => c.isNone) then .fail "墩位有空牌"
        else
          let h := head.filterMap id
          let m := mid.filterMap id
          let t := tail.filterMap id
          let used := (dc :: (h ++ m ++ t)).map cardKey
          if used.dedup.length ≠ used.length then .fail "提交存在重複牌"
          else if ¬ used.all (fun k => k ∈ c9.map cardKey) then .fail "提交的牌不在手牌中"
          else .ok dc h m t

/-- The effect of the `submit` message handler on `room.submissions`: a
failed validation leaves the map untouched and echoes one error message to
the sender; a successful one records the normalized submission under the
sender's id. -/
def submitStep (dealt : Option (List Card)) (submissions : List (String × Submission))
    (sender : String) (payload : RawSubmission) (report : String) :
    List (String × Submission) × List (String × String) :=
  match validateSubmission dealt payload with
  | .fail msg => (submissions, [(sender, msg)])
  | .ok dc h m t =>
    ((sender, ⟨dc, h, m, t, reportOr report⟩) :: submissions, [])

/-! ### Dealer-pick controller (src/server/server.js) -/

/-- Minimum of a nonempty list of ids (`big.sort()[0]` in JS). -/
def minStr (m : String) : List String → String
  | [] => m
  | x :: xs => minStr (if x < m then x else m) xs

/-- `findDealerPickController`: among the target ids, whoever submitted the
big joker as dealer-selection card controls the pick (lowest id first),
otherwise whoever submitted the small joker. -/
def findDealerPickController (submissions : List (String × Submission)) (ids : List String) :
    Option (String × String) :=
  let isSel : String → String → Bool := fun marker id =>
    match alookup submissions id with
    | some s => if s.dealerCard.s = "J" ∧ s.dealerCard.j = marker then true else false
    | none => false
  match ids.filter (isSel "BJ") with
  | b :: bs => some (minStr b bs, "BJ")
  | [] =>
    match ids.filter (isSel "SJ") with
    | s :: ss => some (minStr s ss, "SJ")
    | [] => none

/-- A message sent during the dealer-pick transition. -/
structure PickMsg where
  recipient : String
  kind : String
deriving DecidableEq, Repr

/-- Outcome of `startDealerPickOrReveal`: do nothing (guards failed), reveal
immediately with no override, or enter the pick sub-state, messaging the
controller a pick request and every other connected client a wait notice. -/
inductive PickAction where
  | noop
  | reveal
  | pick (controllerId : String) (kind : String) (msgs : List PickMsg)
deriving DecidableEq, Repr

/-- `startDealerPickOrReveal` of server.js, with `clients` the currently
connected ids and `participants` the current round player ids. -/
def startDealerPickOrReveal (clients participants : List String)
    (submissions : List (String × Submission)) : PickAction :=
  if participants.isEmpty then .noop
  else if ¬ participants.all (fun id => (alookup submissions id).isSome) then .noop
  else
    match findDealerPickController submissions participants with
    | none => .reveal
    | some (cid, kind) =>
      if cid ∈ clients then
        .pick cid kind
          (⟨cid, "dealerPickStart"⟩ ::
            (clients.filter (fun c => c ≠ cid)).map (fun c => ⟨c, "dealerPickWait"⟩))
      else .reveal

/-! ### Claim-side (specification-worded) definitions

These definitions follow the words of the specification, for the refinement
claims that compare the spec's description against the code. -/

/-- Spec-worded head/mid/tail strength for C4: "category weighted
most-significant, then up to two tiebreak values" — i.e. a 3-card section
strength that ignores the third tiebreak value. -/
def strength3Spec (cards : List Card) : Int :=
  let e := eval3 cards
  e.cat * 1000000000 + e.t.getD 0 0 * 1000000 + e.t.getD 1 0 * 1000

/-- Spec-worded foul detector built on `strength3Spec`. -/
def detectFoulSpec (head mid tail : List Card) : Bool :=
  if strength2 head > strength3Spec mid then true
  else if strength3Spec mid > strength3Spec tail then true
  else false

/-- Spec-worded dealer-selection card order for C5: "higher raw rank wins
first; at equal rank, suit order Spade>Heart>Diamond>Club>Joker-marker". -/
def compareSelectCardSpec (a b : Card) : Int :=
  let suitOrder : String → Int := fun s =>
    if s = "S" then 5 else if s = "H" then 4 else if s = "D" then 3
    else if s = "C" then 2 else if s = "J" then 1 else 0
  if a.r ≠ b.r then a.r - b.r else suitOrder a.s - suitOrder b.s

/-- Spec-worded dealer choice for C5: the single highest dealer-selection
card under `compareSelectCardSpec`, remaining ties to the larger id. -/
def computeDealerIdSpec (subs : List (String × Submission)) : Option String :=
  (subs.foldl (fun best p =>
    match best with
    | none => some (p.1, p.2.dealerCard)
    | some (bid, bcard) =>
      let cmp := compareSelectCardSpec p.2.dealerCard bcard
      if cmp > 0 then some (p.1, p.2.dealerCard)
      else if cmp = 0 ∧ bid < p.1 then some (p.1, p.2.dealerCard)
      else some (bid, bcard)) none).map (·.1)

/-- Spec-worded "holds the big joker" for C9: the participant's full
submitted nine-card allotment contains the big joker. -/
def holdsBigJoker (sub : Submission) : Bool :=
  (all9Of sub).any (fun c => if c.s = "J" ∧ c.j = "BJ" then true else false)

/-- A card is in the canonical shape produced by `normalizeCard` (and by the
54-card deck builder). -/
def canonicalCard (c : Card) : Prop := normalizeCard c = some c

/-- The Submission invariant of spec §3 for C8: the payload normalizes to
exactly one dealer-selection card, 2 head cards, 3 mid cards and 3 tail
cards, the nine cards are pairwise distinct, and all are drawn from the
seat's dealt nine. -/
def SubmissionInvariant (c9 : List Card) (sub : RawSubmission) : Prop :=
  ∃ dc h m t,
    sub.dealerCard.bind normalizeCard = some dc ∧
    sub.head.map (fun o => o.bind normalizeCard) = h.map some ∧
    sub.mid.map (fun o => o.bind normalizeCard) = m.map some ∧
    sub.tail.map (fun o => o.bind normalizeCard) = t.map some ∧
    h.length = 2 ∧ m.length = 3 ∧ t.length = 3 ∧
    (dc :: (h ++ m ++ t)).Nodup ∧
    (∀ c ∈ dc :: (h ++ m ++ t), c ∈ c9)

/-- Sum of the totals of all rows whose key differs from the dealer's. -/
def nonDealerTotalSum (l : List (String × PlayerResult)) (d : String) : Int :=
  ((l.filter (fun p => ¬ p.1 = d)).map (fun p => p.2.total)).sum

/-- The effective rank of a dealer-selection card (jokers count as 100). -/
def selRank (c : Card) : Int := if c.s = "J" then 100 else c.r

/-- The suit-order value of a dealer-selection card. -/
def selSuitOrd (c : Card) : Int :=
  if c.s = "S" then 4 else if c.s = "H" then 3 else if c.s = "D" then 2
  else if c.s = "C" then 1 else if c.s = "J" then 5 else 0

/-! ### Concrete instances used by counterexamples and witnesses -/

/-- A submission whose dealer-selection card is the big joker. -/
def bjDealerSub : Submission := ⟨⟨16, "J", "BJ"⟩, [], [], [], "none"⟩

/-- A submission whose dealer-selection card is the small joker. -/
def sjDealerSub : Submission := ⟨⟨15, "J", "SJ"⟩, [], [], [], "none"⟩

/-- Eight consecutive ranks 2..9 in the sections, a king as dealer card, and
a `mixedDragon` claim: the nine cards cannot form a 9-run but the eight
arranged cards are span-consecutive. -/
def dragonSub : Submission :=
  ⟨⟨13, "S", ""⟩, [⟨2, "S", ""⟩, ⟨3, "H", ""⟩], [⟨4, "D", ""⟩, ⟨5, "C", ""⟩, ⟨6, "S", ""⟩],
    [⟨7, "H", ""⟩, ⟨8, "D", ""⟩, ⟨9, "C", ""⟩], "mixedDragon"⟩

/-- A submission holding the big joker inside the mid section while the
dealer-selection card is an ordinary two. -/
def buriedJokerSub : Submission :=
  ⟨⟨2, "S", ""⟩, [⟨9, "H", ""⟩, ⟨9, "S", ""⟩], [⟨16, "J", "BJ"⟩, ⟨5, "H", ""⟩, ⟨7, "D", ""⟩],
    [⟨13, "S", ""⟩, ⟨10, "H", ""⟩, ⟨4, "D", ""⟩], "none"⟩

/-- A fouled arrangement (mid straight flush outranks the tail trips). -/
def witSubA : Submission :=
  ⟨⟨14, "S", ""⟩, [⟨9, "H", ""⟩, ⟨9, "S", ""⟩], [⟨10, "S", ""⟩, ⟨11, "S", ""⟩, ⟨12, "S", ""⟩],
    [⟨13, "S", ""⟩, ⟨13, "H", ""⟩, ⟨13, "D", ""⟩], "none"⟩

/-- A plain, clean arrangement. -/
def witSubB : Submission :=
  ⟨⟨5, "H", ""⟩, [⟨2, "H", ""⟩, ⟨7, "S", ""⟩], [⟨3, "S", ""⟩, ⟨8, "H", ""⟩, ⟨12, "D", ""⟩],
    [⟨4, "C", ""⟩, ⟨10, "H", ""⟩, ⟨14, "D", ""⟩], "none"⟩

/-- A second fouled arrangement (head pair outranks the mid). -/
def witSubC : Submission :=
  ⟨⟨6, "C", ""⟩, [⟨8, "S", ""⟩, ⟨8, "C", ""⟩], [⟨2, "C", ""⟩, ⟨5, "D", ""⟩, ⟨9, "D", ""⟩],
    [⟨3, "C", ""⟩, ⟨6, "D", ""⟩, ⟨11, "H", ""⟩], "none"⟩

/-- A dealer arrangement that fouls: the head pair of nines outranks the
mid high card. -/
def witSubG : Submission :=
  ⟨⟨14, "S", ""⟩, [⟨9, "H", ""⟩, ⟨9, "S", ""⟩], [⟨2, "S", ""⟩, ⟨5, "H", ""⟩, ⟨7, "D", ""⟩],
    [⟨13, "S", ""⟩, ⟨10, "H", ""⟩, ⟨4, "D", ""⟩], "none"⟩

/-- A dealer whose `allRed` report validates (all eight arranged cards red). -/
def witSubD : Submission :=
  ⟨⟨13, "S", ""⟩, [⟨2, "H", ""⟩, ⟨3, "H", ""⟩], [⟨4, "D", ""⟩, ⟨5, "H", ""⟩, ⟨6, "D", ""⟩],
    [⟨7, "H", ""⟩, ⟨8, "D", ""⟩, ⟨9, "H", ""⟩], "allRed"⟩

/-- A non-dealer whose `fourKind` report validates (four fives in the nine). -/
def witSubE : Submission :=
  ⟨⟨12, "C", ""⟩, [⟨5, "S", ""⟩, ⟨5, "C", ""⟩], [⟨5, "D", ""⟩, ⟨5, "H", ""⟩, ⟨9, "S", ""⟩],
    [⟨10, "C", ""⟩, ⟨11, "C", ""⟩, ⟨14, "C", ""⟩], "fourKind"⟩

/-- A plain non-dealer with no report. -/
def witSubF : Submission :=
  ⟨⟨6, "S", ""⟩, [⟨2, "S", ""⟩, ⟨7, "C", ""⟩], [⟨3, "D", ""⟩, ⟨8, "S", ""⟩, ⟨12, "S", ""⟩],
    [⟨4, "S", ""⟩, ⟨10, "D", ""⟩, ⟨14, "H", ""⟩], "none"⟩

/-- The 54 canonical cards of the deck built by the server. -/
def deck54 : List Card :=
  ⟨16, "J", "BJ"⟩ :: ⟨15, "J", "SJ"⟩ ::
    (SUITS.map (fun s => rankList.map (fun r => (⟨r, s, ""⟩ : Card)))).join

/-- A concrete canonical nine-card allotment. -/
def c9wit : List Card :=
  [⟨2, "S", ""⟩, ⟨3, "H", ""⟩, ⟨4, "D", ""⟩, ⟨5, "C", ""⟩, ⟨6, "S", ""⟩,
    ⟨7, "H", ""⟩, ⟨8, "D", ""⟩, ⟨9, "C", ""⟩, ⟨13, "S", ""⟩]

/-- A raw submission missing its dealer-selection card. -/
def rawBad : RawSubmission := ⟨none, [], [], []⟩

/-- The real (non-joker) cards of a hand, as filtered inside `eval2`/`eval3`. -/
def jbase (cards : List Card) : List Card := cards.filter (fun c => ¬ c.s = "J")

/-- The joker count of a hand, as computed inside `eval2`/`eval3`. -/
def jcount (cards : List Card) : Nat := (cards.filter (fun c => c.s = "J")).length

/-- The completed hands the joker search of `eval2`/`eval3` tries. -/
def jhands (cards : List Card) : List (List Card) :=
  subHands (jbase cards) (fullCandidates (jbase cards)) (jcount cards)

/-- The fold step of `computeDealerIdFromSubmissions`. -/
def selStep (best : Option (String × Card)) (p : String × Submission) : Option (String × Card) :=
  match best with
  | none => some (p.1, p.2.dealerCard)
  | some (bid, bcard) =>
    let cmp := compareSelectCard p.2.dealerCard bcard
    if cmp > 0 then some (p.1, p.2.dealerCard)
    else if cmp = 0 ∧ bid < p.1 then some (p.1, p.2.dealerCard)
    else some (bid, bcard)

/-! ## Comparator lemmas -/

theorem compareEval_self (a : Ev) : compareEval a a = 0 := by
  simp [compareEval, compareT]

theorem compareEval_add_symm (a b : Ev) : compareEval a b + compareEval b a = 0 := by
  simp only [compareEval, compareT]
  split_ifs <;> omega

theorem compareEval_le_iff (a b : Ev) :
    compareEval a b ≤ 0 ↔
      (a.cat < b.cat ∨ (a.cat = b.cat ∧
        (a.t.getD 0 0 < b.t.getD 0 0 ∨ (a.t.getD 0 0 = b.t.getD 0 0 ∧
          (a.t.getD 1 0 < b.t.getD 1 0 ∨ (a.t.getD 1 0 = b.t.getD 1 0 ∧
            a.t.getD 2 0 ≤ b.t.getD 2 0)))))) := by
  simp only [compareEval, compareT]
  split_ifs <;> omega

theorem compareEval_trans_le {a b c : Ev} (h1 : compareEval a b ≤ 0)
    (h2 : compareEval b c ≤ 0) : compareEval a c ≤ 0 := by
  rw [compareEval_le_iff] at h1 h2 ⊢
  rcases h1 with h1 | ⟨e1, h1⟩ <;> rcases h2 with h2 | ⟨e2, h2⟩
  · omega
  · omega
  · omega
  · right
    refine ⟨by omega, ?_⟩
    rcases h1 with h1 | ⟨f1, h1⟩ <;> rcases h2 with h2 | ⟨f2, h2⟩
    · omega
    · omega
    · omega
    · right
      refine ⟨by omega, ?_⟩
      rcases h1 with h1 | ⟨g1, h1⟩ <;> rcases h2 with h2 | ⟨g2, h2⟩ <;> omega

/-! ## Best-so-far fold lemmas -/

theorem bestFold_cons (f : List Card → Ev) (h : List Card) (hs : List (List Card)) (b : Ev) :
    bestFold f (h :: hs) b = bestFold f hs (if compareEval (f h) b > 0 then f h else b) := by
  simp [bestFold]

theorem bestFold_init_le (f : List Card → Ev) (hands : List (List Card)) (b : Ev) :
    compareEval b (bestFold f hands b) ≤ 0 := by
  induction hands generalizing b with
  | nil => simp [bestFold, compareEval_self]
  | cons h hs ih =>
    rw [bestFold_cons]
    by_cases hc : compareEval (f h) b > 0
    · simp only [if_pos hc]
      refine compareEval_trans_le ?_ (ih (f h))
      have := compareEval_add_symm (f h) b
      omega
    · simp only [if_neg hc]
      exact ih b

theorem bestFold_le (f : List Card → Ev) (hands : List (List Card)) (b : Ev) :
    ∀ h ∈ hands, compareEval (f h) (bestFold f hands b) ≤ 0 := by
  induction hands generalizing b with
  | nil => intro h hh; simp at hh
  | cons h0 hs ih =>
    intro h hh
    rw [bestFold_cons]
    rcases List.mem_cons.mp hh with rfl | hmem
    · by_cases hc : compareEval (f h) b > 0
      · simp only [if_pos hc]
        have h1 : compareEval (f h) (f h) ≤ 0 := le_of_eq (compareEval_self (f h))
        exact compareEval_trans_le h1 (bestFold_init_le f hs (f h))
      · simp only [if_neg hc]
        exact compareEval_trans_le (by omega) (bestFold_init_le f hs b)
    · exact ih _ h hmem

theorem bestFold_cases (f : List Card → Ev) (hands : List (List Card)) (b : Ev) :
    bestFold f hands b = b ∨ ∃ h ∈ hands, bestFold f hands b = f h := by
  induction hands generalizing b with
  | nil => left; simp [bestFold]
  | cons h0 hs ih =>
    rw [bestFold_cons]
    by_cases hc : compareEval (f h0) b > 0
    · simp only [if_pos hc]
      rcases ih (f h0) with heq | ⟨h, hmem, heq⟩
      · right; exact ⟨h0, List.mem_cons_self _ _, heq⟩
      · right; exact ⟨h, List.mem_cons_of_mem _ hmem, heq⟩
    · simp only [if_neg hc]
      rcases ih b with heq | ⟨h, hmem, heq⟩
      · left; exact heq
      · right; exact ⟨h, List.mem_cons_of_mem _ hmem, heq⟩

/-! ## Sorting lemmas -/

theorem sortDesc_two (x y : Int) : sortDesc [x, y] = [max x y, min x y] := by
  simp only [sortDesc, List.insertionSort, List.orderedInsert]
  split_ifs <;> simp only [List.cons.injEq, and_true] <;> omega

theorem sortDesc_three (x y z : Int) :
    sortDesc [x, y, z] =
      [max x (max y z), x + y + z - max x (max y z) - min x (min y z), min x (min y z)] := by
  simp only [sortDesc, List.insertionSort, List.orderedInsert]
  split_ifs <;> simp only [List.orderedInsert] <;> split_ifs <;>
    simp only [List.cons.injEq, and_true] <;> omega

theorem sortAsc_three (x y z : Int) :
    sortAsc [x, y, z] =
      [min x (min y z), x + y + z - max x (max y z) - min x (min y z), max x (max y z)] := by
  simp only [sortAsc, List.insertionSort, List.orderedInsert]
  split_ifs <;> simp only [List.orderedInsert] <;> split_ifs <;>
    simp only [List.cons.injEq, and_true] <;> omega

theorem eval3Core_char (a b c : Int) (f : Bool) (hab : b ≤ a) (hbc : c ≤ b) :
    eval3Core [a, b, c] f =
      if a = b ∧ b = c then { cat := 4, t := [a], name := "三條" }
      else if (a = b + 1 ∧ b = c + 1) ∨ (a = 14 ∧ b = 3 ∧ c = 2) then
        (if f then
          { cat := 5, t := [if a = b + 1 ∧ b = c + 1 then (if a = 14 then 15 else a) else 14],
            name := "同花順" }
         else
          { cat := 3, t := [if a = b + 1 ∧ b = c + 1 then (if a = 14 then 15 else a) else 14],
            name := "順子" })
      else if a = b then { cat := 1, t := [a, c], name := "一對" }
      else if b = c then { cat := 1, t := [b, a], name := "一對" }
      else { cat := 0, t := [a, b, c], name := "高牌" } := by
  have hAsc : sortAsc [a, b, c] = [c, b, a] := by
    rw [sortAsc_three]
    simp only [List.cons.injEq, and_true]
    omega
  by_cases h1 : a = b <;> by_cases h2 : b = c
  · -- all equal: three of a kind
    subst h1; subst h2
    have hd : ([a, a, a] : List Int).dedup = [a] := by
      simp [List.dedup_cons_of_mem, List.mem_cons]
    simp [eval3Core, hd, hAsc]
  · -- a = b ≠ c : pair (a, c)
    subst h1
    have hd : ([a, a, c] : List Int).dedup = [a, c] := by
      rw [List.dedup_cons_of_mem (by simp), List.dedup_cons_of_not_mem (by simp [h2])]
      simp
    simp [eval3Core, hd, hAsc, List.count_cons, h2]
    split_ifs <;> simp_all <;> omega
  · -- a ≠ b = c : pair (b, a)
    subst h2
    have hd : ([a, b, b] : List Int).dedup = [a, b] := by
      rw [List.dedup_cons_of_not_mem (by simp [h1]), List.dedup_cons_of_mem (by simp)]
      simp
    have hcnt : List.count a [a, b, b] = 1 := by
      simp [List.count_cons, h1, Ne.symm]
    simp [eval3Core, hd, hAsc, hcnt, h1]
    split_ifs <;> simp_all <;> omega
  · -- distinct: straight / high card
    have hd : ([a, b, c] : List Int).dedup = [a, b, c] := by
      rw [List.dedup_cons_of_not_mem (by simp; omega),
        List.dedup_cons_of_not_mem (by simp [h2])]
      simp
    simp [eval3Core, hd, hAsc, h1, h2]
    split_ifs <;> simp_all <;> omega

theorem isFlushOf_three_true {s0 s1 s2 : String} (u : s0 = s1) (v : s1 = s2) :
    isFlushOf [s0, s1, s2] = true := by
  subst u; subst v; simp [isFlushOf]

theorem isFlushOf_three_false {s0 s1 s2 : String} (h : ¬ (s0 = s1 ∧ s1 = s2)) :
    isFlushOf [s0, s1, s2] = false := by
  by_contra hcon
  have htrue : isFlushOf [s0, s1, s2] = true := by
    revert hcon; cases isFlushOf [s0, s1, s2] <;> simp
  simp [isFlushOf] at htrue
  exact h ⟨htrue.1.symm, htrue.1.trans htrue.2.symm⟩

theorem eval3NoJoker_sorted (r0 r1 r2 : Int) (s0 s1 s2 : String) :
    eval3NoJoker [⟨r0, s0, ""⟩, ⟨r1, s1, ""⟩, ⟨r2, s2, ""⟩] =
      eval3Core
        [max r0 (max r1 r2), r0 + r1 + r2 - max r0 (max r1 r2) - min r0 (min r1 r2),
          min r0 (min r1 r2)]
        (isFlushOf [s0, s1, s2]) := by
  rw [eval3NoJoker]
  congr 1
  simp only [List.map]
  exact sortDesc_three r0 r1 r2

set_option maxHeartbeats 1000000 in
theorem c3_cat_aux (r0 r1 r2 : Int) (s0 s1 s2 : String) :
    (eval3NoJoker [⟨r0, s0, ""⟩, ⟨r1, s1, ""⟩, ⟨r2, s2, ""⟩]).cat =
      if ((¬ (r0 = r1 ∨ r1 = r2 ∨ r0 = r2)) ∧
            (max r0 (max r1 r2) - min r0 (min r1 r2) = 2 ∨
              (min r0 (min r1 r2) = 2 ∧
                r0 + r1 + r2 - max r0 (max r1 r2) - min r0 (min r1 r2) = 3 ∧
                max r0 (max r1 r2) = 14))) ∧ (s0 = s1 ∧ s1 = s2) then 5
      else if r0 = r1 ∧ r1 = r2 then 4
      else if (¬ (r0 = r1 ∨ r1 = r2 ∨ r0 = r2)) ∧
            (max r0 (max r1 r2) - min r0 (min r1 r2) = 2 ∨
              (min r0 (min r1 r2) = 2 ∧
                r0 + r1 + r2 - max r0 (max r1 r2) - min r0 (min r1 r2) = 3 ∧
                max r0 (max r1 r2) = 14)) then 3
      else if r0 = r1 ∨ r1 = r2 ∨ r0 = r2 then 1
      else 0 := by
  rw [eval3NoJoker_sorted, eval3Core_char _ _ _ _ (by omega) (by omega)]
  by_cases hfl : s0 = s1 ∧ s1 = s2
  · rw [isFlushOf_three_true hfl.1 hfl.2]
    simp only [apply_ite (Ev.cat), if_true, hfl.1, hfl.2, eq_self_iff_true, and_true]
    split_ifs <;> first | rfl | omega
  · rw [isFlushOf_three_false hfl]
    simp only [apply_ite (Ev.cat), Bool.false_eq_true, if_false, hfl, and_false, if_false]
    split_ifs <;> first | rfl | omega

set_option maxHeartbeats 1000000 in
theorem c3_t_run_aux (r0 r1 r2 : Int) (s0 s1 s2 : String)
    (hnd : ¬ (r0 = r1 ∨ r1 = r2 ∨ r0 = r2))
    (hsp : max r0 (max r1 r2) - min r0 (min r1 r2) = 2) :
    (eval3NoJoker [⟨r0, s0, ""⟩, ⟨r1, s1, ""⟩, ⟨r2, s2, ""⟩]).t =
      [if max r0 (max r1 r2) = 14 then 15 else max r0 (max r1 r2)] := by
  rw [eval3NoJoker_sorted, eval3Core_char _ _ _ _ (by omega) (by omega)]
  rcases Bool.eq_false_or_eq_true (isFlushOf [s0, s1, s2]) with hf | hf <;> rw [hf] <;>
    simp only [apply_ite (Ev.t), Bool.false_eq_true, if_false, if_true] <;>
    split_ifs <;> first | rfl | omega

set_option maxHeartbeats 1000000 in
theorem c3_t_a23_aux (r0 r1 r2 : Int) (s0 s1 s2 : String)
    (hnd : ¬ (r0 = r1 ∨ r1 = r2 ∨ r0 = r2))
    (hmn : min r0 (min r1 r2) = 2)
    (hmd : r0 + r1 + r2 - max r0 (max r1 r2) - min r0 (min r1 r2) = 3)
    (hmx : max r0 (max r1 r2) = 14) :
    (eval3NoJoker [⟨r0, s0, ""⟩, ⟨r1, s1, ""⟩, ⟨r2, s2, ""⟩]).t = [14] := by
  rw [eval3NoJoker_sorted, eval3Core_char _ _ _ _ (by omega) (by omega)]
  rcases Bool.eq_false_or_eq_true (isFlushOf [s0, s1, s2]) with hf | hf <;> rw [hf] <;>
    simp only [apply_ite (Ev.t), Bool.false_eq_true, if_false, if_true] <;>
    split_ifs <;> first | rfl | omega

/-- C3: for every 3-card hand with no joker, the evaluator assigns the
category ordinal (high-card 0, pair 1, straight 3, three-of-kind 4,
straight-flush 5) exactly by rank multiplicity, suit uniformity and run
detection; Ace is high (an Ace-topped consecutive run compares as 15) and
additionally forms the bottom of the 2-3-A run, which compares as 14; no
other Ace-low run exists at 3-card length. -/
theorem c3_eval3_category_table (r0 r1 r2 : Int) (s0 s1 s2 : String)
    (h0 : 2 ≤ r0 ∧ r0 ≤ 14) (h1 : 2 ≤ r1 ∧ r1 ≤ 14) (h2 : 2 ≤ r2 ∧ r2 ≤ 14)
    (hs0 : s0 ∈ SUITS) (hs1 : s1 ∈ SUITS) (hs2 : s2 ∈ SUITS) :
    ((eval3NoJoker [⟨r0, s0, ""⟩, ⟨r1, s1, ""⟩, ⟨r2, s2, ""⟩]).cat =
      if ((¬ (r0 = r1 ∨ r1 = r2 ∨ r0 = r2)) ∧
            (max r0 (max r1 r2) - min r0 (min r1 r2) = 2 ∨
              (min r0 (min r1 r2) = 2 ∧
                r0 + r1 + r2 - max r0 (max r1 r2) - min r0 (min r1 r2) = 3 ∧
                max r0 (max r1 r2) = 14))) ∧ (s0 = s1 ∧ s1 = s2) then 5
      else if r0 = r1 ∧ r1 = r2 then 4
      else if (¬ (r0 = r1 ∨ r1 = r2 ∨ r0 = r2)) ∧
            (max r0 (max r1 r2) - min r0 (min r1 r2) = 2 ∨
              (min r0 (min r1 r2) = 2 ∧
                r0 + r1 + r2 - max r0 (max r1 r2) - min r0 (min r1 r2) = 3 ∧
                max r0 (max r1 r2) = 14)) then 3
      else if r0 = r1 ∨ r1 = r2 ∨ r0 = r2 then 1
      else 0) ∧
    (¬ (r0 = r1 ∨ r1 = r2 ∨ r0 = r2) ∧ max r0 (max r1 r2) - min r0 (min r1 r2) = 2 →
      (eval3NoJoker [⟨r0, s0, ""⟩, ⟨r1, s1, ""⟩, ⟨r2, s2, ""⟩]).t =
        [if max r0 (max r1 r2) = 14 then 15 else max r0 (max r1 r2)]) ∧
    (¬ (r0 = r1 ∨ r1 = r2 ∨ r0 = r2) ∧ min r0 (min r1 r2) = 2 ∧
        r0 + r1 + r2 - max r0 (max r1 r2) - min r0 (min r1 r2) = 3 ∧
        max r0 (max r1 r2) = 14 →
      (eval3NoJoker [⟨r0, s0, ""⟩, ⟨r1, s1, ""⟩, ⟨r2, s2, ""⟩]).t = [14]) :=
  ⟨c3_cat_aux r0 r1 r2 s0 s1 s2,
    fun h => c3_t_run_aux r0 r1 r2 s0 s1 s2 h.1 h.2,
    fun h => c3_t_a23_aux r0 r1 r2 s0 s1 s2 h.1 h.2.1 h.2.2.1 h.2.2.2⟩

/-- C4 amended: a foul occurs iff head strength exceeds mid strength or mid
strength exceeds tail strength, with a message naming the broken boundary. -/
theorem c4_detect_foul_iff (head mid tail : List Card)
    (hh : head.length = 2) (hm : mid.length = 3) (ht : tail.length = 3) :
    ((detectFoul head mid tail).foul = true ↔
      (strength3 mid < strength2 head ∨ strength3 tail < strength3 mid)) ∧
    (strength3 mid < strength2 head →
      (detectFoul head mid tail).msg = "擺烏龍：頭墩大於中墩") ∧
    (¬ strength3 mid < strength2 head → strength3 tail < strength3 mid →
      (detectFoul head mid tail).msg = "擺烏龍：中墩大於尾墩") := by
  simp only [detectFoul]
  split_ifs with h1 h2 <;>
    simp_all

/-- C4 counterexample: the spec's two-tiebreak strength declares this
arrangement clean while the code fouls it on the third tiebreak value
(mid 14-10-5 high card vs tail 14-10-4 high card). -/
theorem c4_counterexample :
    (detectFoul [⟨2, "S", ""⟩, ⟨3, "H", ""⟩]
        [⟨14, "S", ""⟩, ⟨10, "H", ""⟩, ⟨5, "D", ""⟩]
        [⟨14, "H", ""⟩, ⟨10, "C", ""⟩, ⟨4, "S", ""⟩]).foul = true ∧
    detectFoulSpec [⟨2, "S", ""⟩, ⟨3, "H", ""⟩]
        [⟨14, "S", ""⟩, ⟨10, "H", ""⟩, ⟨5, "D", ""⟩]
        [⟨14, "H", ""⟩, ⟨10, "C", ""⟩, ⟨4, "S", ""⟩] = false := by
  constructor
  · rfl
  · rfl

/-- Witness for the C4 theorem at a concrete fully-populated arrangement. -/
theorem c4_witness :
    (detectFoul [⟨9, "H", ""⟩, ⟨9, "S", ""⟩]
        [⟨2, "S", ""⟩, ⟨5, "H", ""⟩, ⟨7, "D", ""⟩]
        [⟨13, "S", ""⟩, ⟨10, "H", ""⟩, ⟨4, "D", ""⟩]).foul = true ↔
      (strength3 [⟨2, "S", ""⟩, ⟨5, "H", ""⟩, ⟨7, "D", ""⟩] <
          strength2 [⟨9, "H", ""⟩, ⟨9, "S", ""⟩] ∨
        strength3 [⟨13, "S", ""⟩, ⟨10, "H", ""⟩, ⟨4, "D", ""⟩] <
          strength3 [⟨2, "S", ""⟩, ⟨5, "H", ""⟩, ⟨7, "D", ""⟩]) :=
  (c4_detect_foul_iff [⟨9, "H", ""⟩, ⟨9, "S", ""⟩]
    [⟨2, "S", ""⟩, ⟨5, "H", ""⟩, ⟨7, "D", ""⟩]
    [⟨13, "S", ""⟩, ⟨10, "H", ""⟩, ⟨4, "D", ""⟩] rfl rfl rfl).1

/-- C6 amended: the dragon reports inspect only the eight arranged cards
(head, mid, tail — the dealer-selection card is excluded), `greenDragon`
additionally requiring the non-jokers among them to be all red or all
black; the bonus is 15 / 100 on success. -/
theorem c6_dragon_eight_cards (all9 : List Card) (sub : Submission) (evals : SectionEvals) :
    ((validateSpecial "mixedDragon" all9 sub evals).ok =
      canMakeLength9Straight (sub.head ++ sub.mid ++ sub.tail) none) ∧
    ((validateSpecial "mixedDragon" all9 sub evals).bonus =
      if (validateSpecial "mixedDragon" all9 sub evals).ok then 15 else 0) ∧
    ((validateSpecial "greenDragon" all9 sub evals).ok = true ↔
      (canMakeLength9Straight (sub.head ++ sub.mid ++ sub.tail) (some "red") = true ∨
        canMakeLength9Straight (sub.head ++ sub.mid ++ sub.tail) (some "black") = true)) ∧
    ((validateSpecial "greenDragon" all9 sub evals).bonus =
      if (validateSpecial "greenDragon" all9 sub evals).ok then 100 else 0) := by
  refine ⟨rfl, rfl, ?_, rfl⟩
  show decide _ = true ↔ _
  simp only [decide_eq_true_eq]

/-- C6 counterexample: the dealer card (a king) plus eight consecutive
section cards: the code validates `mixedDragon`, while no 9-length run is
completable from the full nine-card allotment (Ace high or low). -/
theorem c6_counterexample :
    (validateSpecial "mixedDragon" (all9Of dragonSub) dragonSub (evalOf dragonSub)).ok = true ∧
    canMakeLength9Straight (all9Of dragonSub) none = false := by
  constructor
  · rfl
  · rfl

/-- C5 counterexample: with one player submitting the big joker and another
the small joker as dealer-selection cards, the code treats both as rank 100
and lets the identifier tie-break pick "z", while the spec's raw-rank-first
order (big joker rank 16 beats small joker rank 15) would pick "a". -/
theorem c5_counterexample :
    computeDealerIdFromSubmissions [("a", bjDealerSub), ("z", sjDealerSub)] = some "z" ∧
    computeDealerIdSpec [("a", bjDealerSub), ("z", sjDealerSub)] = some "a" ∧
    ("z" : String) ≠ "a" := by
  have haz : ("a" : String) < "z" := by
    rw [String.lt_iff_toList_lt]; decide
  refine ⟨?_, by decide, by decide⟩
  simp only [computeDealerIdFromSubmissions, List.foldl, bjDealerSub, sjDealerSub]
  norm_num [compareSelectCard, haz]

theorem csc_char (a b : Card) :
    compareSelectCard a b =
      if selRank a ≠ selRank b then selRank a - selRank b
      else selSuitOrd a - selSuitOrd b := rfl

theorem csc_pos_iff (a b : Card) :
    compareSelectCard a b > 0 ↔
      (selRank b < selRank a ∨ (selRank a = selRank b ∧ selSuitOrd b < selSuitOrd a)) := by
  rw [csc_char]
  split_ifs <;> omega

theorem csc_neg_iff (a b : Card) :
    compareSelectCard a b < 0 ↔
      (selRank a < selRank b ∨ (selRank a = selRank b ∧ selSuitOrd a < selSuitOrd b)) := by
  rw [csc_char]
  split_ifs <;> omega

theorem csc_eq_zero_iff (a b : Card) :
    compareSelectCard a b = 0 ↔
      (selRank a = selRank b ∧ selSuitOrd a = selSuitOrd b) := by
  rw [csc_char]
  split_ifs <;> omega

/-- Strict select-card-then-id order composition with a weak step. -/
theorem sel_lt_of_lt_of_le {c1 c2 c3 : Card} {i1 i2 i3 : String}
    (h1 : compareSelectCard c1 c2 < 0 ∨ (compareSelectCard c1 c2 = 0 ∧ i1 < i2))
    (h2 : compareSelectCard c2 c3 < 0 ∨
      (compareSelectCard c2 c3 = 0 ∧ (i2 < i3 ∨ i2 = i3))) :
    compareSelectCard c1 c3 < 0 ∨ (compareSelectCard c1 c3 = 0 ∧ i1 < i3) := by
  rw [csc_neg_iff, csc_eq_zero_iff] at h1 h2 ⊢
  rcases h1 with h1 | ⟨e1, h1⟩ <;> rcases h2 with h2 | ⟨e2, h2⟩
  · left; omega
  · left; omega
  · left; omega
  · rcases h2 with h2 | rfl
    · by_cases hr : selRank c1 < selRank c3 ∨ (selRank c1 = selRank c3 ∧ selSuitOrd c1 < selSuitOrd c3)
      · exact Or.inl hr
      · exact Or.inr ⟨by omega, lt_trans h1 h2⟩
    · by_cases hr : selRank c1 < selRank c3 ∨ (selRank c1 = selRank c3 ∧ selSuitOrd c1 < selSuitOrd c3)
      · exact Or.inl hr
      · exact Or.inr ⟨by omega, h1⟩

theorem computeDealerId_eq_fold (subs : List (String × Submission)) :
    computeDealerIdFromSubmissions subs = (subs.foldl selStep none).map (·.1) := rfl

theorem selFold_from_some (l : List (String × Submission)) (bid : String) (bc : Card)
    (hnotin : bid ∉ l.map Prod.fst) (hnd : (l.map Prod.fst).Nodup) :
    ∃ w wc, l.foldl selStep (some (bid, bc)) = some (w, wc) ∧
      ((w = bid ∧ wc = bc) ∨ (∃ s, (w, s) ∈ l ∧ s.dealerCard = wc)) ∧
      (compareSelectCard bc wc < 0 ∨
        (compareSelectCard bc wc = 0 ∧ (bid < w ∨ bid = w))) ∧
      (∀ p ∈ l, p.1 ≠ w →
        compareSelectCard p.2.dealerCard wc < 0 ∨
          (compareSelectCard p.2.dealerCard wc = 0 ∧ p.1 < w)) := by
  induction l generalizing bid bc with
  | nil =>
    exact ⟨bid, bc, rfl, Or.inl ⟨rfl, rfl⟩,
      Or.inr ⟨by rw [csc_eq_zero_iff]; exact ⟨rfl, rfl⟩, Or.inr rfl⟩, by simp⟩
  | cons p rest ih =>
    simp only [List.map_cons, List.mem_cons, not_or] at hnotin
    have hndr : (rest.map Prod.fst).Nodup := (List.nodup_cons.mp hnd).2
    have hpnotin : p.1 ∉ rest.map Prod.fst := (List.nodup_cons.mp hnd).1
    have hbidp : bid ≠ p.1 := hnotin.1
    have hbidr : bid ∉ rest.map Prod.fst := hnotin.2
    by_cases hgt : compareSelectCard p.2.dealerCard bc > 0
    · -- new best p
      have hstep : List.foldl selStep (some (bid, bc)) (p :: rest) =
          List.foldl selStep (some (p.1, p.2.dealerCard)) rest := by
        simp [selStep, hgt]
      obtain ⟨w, wc, hw, hprov, hinit, hall⟩ := ih p.1 p.2.dealerCard hpnotin hndr
      refine ⟨w, wc, hstep ▸ hw, ?_, ?_, ?_⟩
      · rcases hprov with ⟨rfl, rfl⟩ | ⟨s, hs, hc⟩
        · exact Or.inr ⟨p.2, by simp, rfl⟩
        · exact Or.inr ⟨s, List.mem_cons_of_mem _ hs, hc⟩
      · -- (bc, bid) strictly below (p.2.dealerCard, p.1) ≤ (wc, w)
        have hlt : compareSelectCard bc p.2.dealerCard < 0 ∨
            (compareSelectCard bc p.2.dealerCard = 0 ∧ bid < p.1) := by
          left
          rw [csc_neg_iff]
          rw [csc_pos_iff] at hgt
          omega
        rcases sel_lt_of_lt_of_le hlt hinit with h | ⟨h1, h2⟩
        · exact Or.inl h
        · exact Or.inr ⟨h1, Or.inl h2⟩
      · intro q hq hqw
        rcases List.mem_cons.mp hq with rfl | hqr
        · rcases hinit with h | ⟨h1, h2⟩
          · exact Or.inl h
          · rcases h2 with h2 | h2
            · exact Or.inr ⟨h1, h2⟩
            · exact absurd h2 hqw
        · exact hall q hqr hqw
    · by_cases heq : compareSelectCard p.2.dealerCard bc = 0 ∧ bid < p.1
      · -- new best p by id tiebreak
        have hstep : List.foldl selStep (some (bid, bc)) (p :: rest) =
            List.foldl selStep (some (p.1, p.2.dealerCard)) rest := by
          simp [selStep, hgt, heq]
        obtain ⟨w, wc, hw, hprov, hinit, hall⟩ := ih p.1 p.2.dealerCard hpnotin hndr
        refine ⟨w, wc, hstep ▸ hw, ?_, ?_, ?_⟩
        · rcases hprov with ⟨rfl, rfl⟩ | ⟨s, hs, hc⟩
          · exact Or.inr ⟨p.2, by simp, rfl⟩
          · exact Or.inr ⟨s, List.mem_cons_of_mem _ hs, hc⟩
        · have hlt : compareSelectCard bc p.2.dealerCard < 0 ∨
              (compareSelectCard bc p.2.dealerCard = 0 ∧ bid < p.1) := by
            right
            constructor
            · rw [csc_eq_zero_iff] at heq ⊢
              omega
            · exact heq.2
          rcases sel_lt_of_lt_of_le hlt hinit with h | ⟨h1, h2⟩
          · exact Or.inl h
          · exact Or.inr ⟨h1, Or.inl h2⟩
        · intro q hq hqw
          rcases List.mem_cons.mp hq with rfl | hqr
          · rcases hinit with h | ⟨h1, h2⟩
            · exact Or.inl h
            · rcases h2 with h2 | h2
              · exact Or.inr ⟨h1, h2⟩
              · exact absurd h2 hqw
          · exact hall q hqr hqw
      · -- keep (bid, bc)
        have hstep : List.foldl selStep (some (bid, bc)) (p :: rest) =
            List.foldl selStep (some (bid, bc)) rest := by
          rw [List.foldl_cons]
          congr 1
          simp only [selStep]
          rw [if_neg hgt, if_neg heq]
        obtain ⟨w, wc, hw, hprov, hinit, hall⟩ := ih bid bc hbidr hndr
        have hpbelow : compareSelectCard p.2.dealerCard bc < 0 ∨
            (compareSelectCard p.2.dealerCard bc = 0 ∧ p.1 < bid) := by
          by_cases hz : compareSelectCard p.2.dealerCard bc = 0
          · right
            refine ⟨hz, ?_⟩
            have : ¬ bid < p.1 := fun hlt => heq ⟨hz, hlt⟩
            rcases lt_or_gt_of_ne (Ne.symm hbidp) with h | h
            · exact h
            · exact absurd h this
          · left
            rw [csc_pos_iff] at hgt
            rw [csc_eq_zero_iff] at hz
            rw [csc_neg_iff]
            omega
        refine ⟨w, wc, hstep ▸ hw, ?_, hinit, ?_⟩
        · rcases hprov with h | ⟨s, hs, hc⟩
          · exact Or.inl h
          · exact Or.inr ⟨s, List.mem_cons_of_mem _ hs, hc⟩
        · intro q hq hqw
          rcases List.mem_cons.mp hq with rfl | hqr
          · rcases sel_lt_of_lt_of_le hpbelow hinit with h | ⟨h1, h2⟩
            · exact Or.inl h
            · exact Or.inr ⟨h1, h2⟩
          · exact hall q hqr hqw

theorem alookup_of_mem_nodup {α : Type} {l : List (String × α)} {k : String} {v : α}
    (hmem : (k, v) ∈ l) (hnd : (l.map Prod.fst).Nodup) : alookup l k = some v := by
  induction l with
  | nil => simp at hmem
  | cons p rest ih =>
    rcases List.mem_cons.mp hmem with rfl | hr
    · simp [alookup]
    · have hk : ¬ p.1 = k := by
        intro h
        subst h
        exact (List.nodup_cons.mp hnd).1 (by simpa using List.mem_map_of_mem Prod.fst hr)
      simp only [alookup, if_neg hk]
      exact ih hr (List.nodup_cons.mp hnd).2

/-- C5 amended: with no override, the dealer is the maximum submission under
the order: effective select-card comparison first (both jokers share the top
effective rank 100, standard cards compare by raw rank then suit order
S>H>D>C), remaining ties broken towards the larger id string. -/
theorem c5_dealer_selection (subs : List (String × Submission))
    (hne : subs ≠ []) (hnd : (subs.map Prod.fst).Nodup) :
    ∃ w wsub, computeDealerIdFromSubmissions subs = some w ∧
      alookup subs w = some wsub ∧
      ∀ p ∈ subs, p.1 ≠ w →
        (compareSelectCard p.2.dealerCard wsub.dealerCard < 0 ∨
          (compareSelectCard p.2.dealerCard wsub.dealerCard = 0 ∧ p.1 < w)) := by
  match subs, hne with
  | p0 :: rest, _ =>
    have hnd0 := hnd
    simp only [List.map_cons, List.nodup_cons] at hnd0
    obtain ⟨w, wc, hw, hprov, hinit, hall⟩ :=
      selFold_from_some rest p0.1 p0.2.dealerCard hnd0.1 hnd0.2
    have hfold : computeDealerIdFromSubmissions (p0 :: rest) = some w := by
      rw [computeDealerId_eq_fold]
      have : List.foldl selStep none (p0 :: rest) =
          List.foldl selStep (some (p0.1, p0.2.dealerCard)) rest := by
        simp [selStep]
      rw [this, hw]
      rfl
    have hmemw : ∃ wsub, (w, wsub) ∈ p0 :: rest ∧ wsub.dealerCard = wc := by
      rcases hprov with ⟨rfl, rfl⟩ | ⟨s, hs, hc⟩
      · exact ⟨p0.2, by simp, rfl⟩
      · exact ⟨s, List.mem_cons_of_mem _ hs, hc⟩
    obtain ⟨wsub, hwmem, hwc⟩ := hmemw
    refine ⟨w, wsub, hfold, alookup_of_mem_nodup hwmem hnd, ?_⟩
    intro p hp hpw
    rw [hwc]
    rcases List.mem_cons.mp hp with rfl | hpr
    · rcases hinit with h | ⟨h1, h2⟩
      · exact Or.inl h
      · rcases h2 with h2 | h2
        · exact Or.inr ⟨h1, h2⟩
        · exact absurd h2 hpw
    · exact hall p hpr hpw

/-- Witness for the C5 theorem: two players with standard select cards; the
ace of spades holder is picked. -/
theorem c5_witness :
    ∃ w wsub,
      computeDealerIdFromSubmissions [("a", witSubA), ("b", witSubB)] = some w ∧
      alookup [("a", witSubA), ("b", witSubB)] w = some wsub ∧
      ∀ p ∈ [("a", witSubA), ("b", witSubB)], p.1 ≠ w →
        (compareSelectCard p.2.dealerCard wsub.dealerCard < 0 ∨
          (compareSelectCard p.2.dealerCard wsub.dealerCard = 0 ∧ p.1 < w)) :=
  c5_dealer_selection [("a", witSubA), ("b", witSubB)] (by decide) (by decide)

/-! ## Association list and counting lemmas -/

theorem alookup_filter_ne {α : Type} (l : List (String × α)) (d k : String) :
    alookup (l.filter (fun p => ¬ p.1 = d)) k = if k = d then none else alookup l k := by
  induction l with
  | nil => simp [alookup]
  | cons p rest ih =>
    by_cases hp : p.1 = d
    · rw [List.filter_cons_of_neg (by simp [hp])]
      rw [ih]
      by_cases hk : k = d
      · simp [hk]
      · have : ¬ p.1 = k := by rw [hp]; exact fun he => hk he.symm
        simp [hk, alookup, this]
    · rw [List.filter_cons_of_pos (by simp [hp])]
      by_cases hk : p.1 = k
      · have : ¬ k = d := by rw [← hk]; exact hp
        simp [alookup, hk, this]
      · simp only [alookup, if_neg hk]
        exact ih

theorem alookup_map_snd {α β : Type} (l : List (String × α)) (g : String → α → β)
    (k : String) :
    alookup (l.map (fun p => (p.1, g p.1 p.2))) k = (alookup l k).map (g k) := by
  induction l with
  | nil => simp [alookup]
  | cons p rest ih =>
    by_cases hp : p.1 = k
    · subst hp
      simp [alookup]
    · simp [alookup, hp, ih]

theorem alookup_mem {α : Type} {l : List (String × α)} {k : String} {v : α}
    (h : alookup l k = some v) : (k, v) ∈ l := by
  induction l with
  | nil => simp [alookup] at h
  | cons p rest ih =>
    by_cases hp : p.1 = k
    · simp only [alookup, if_pos hp] at h
      obtain ⟨hk, hv⟩ : p.1 = k ∧ p.2 = v := ⟨hp, by injection h⟩
      exact List.mem_cons.mpr (Or.inl (by cases p; simp_all))
    · simp only [alookup, if_neg hp] at h
      exact List.mem_cons_of_mem _ (ih h)

theorem alookup_isSome_iff {α : Type} (l : List (String × α)) (k : String) :
    (alookup l k).isSome = true ↔ k ∈ l.map Prod.fst := by
  induction l with
  | nil => simp [alookup]
  | cons p rest ih =>
    by_cases hp : p.1 = k
    · simp [alookup, hp]
    · simp only [alookup, if_neg hp, List.map_cons, List.mem_cons, ih]
      constructor
      · exact Or.inr
      · rintro (h | h)
        · exact absurd h.symm hp
        · exact h

theorem filter_map_key {α β : Type} (l : List (String × α)) (g : String → α → β)
    (d : String) :
    (l.map (fun p => (p.1, g p.1 p.2))).filter (fun q => ¬ q.1 = d) =
      (l.filter (fun p => ¬ p.1 = d)).map (fun p => (p.1, g p.1 p.2)) := by
  induction l with
  | nil => rfl
  | cons p rest ih =>
    by_cases hp : p.1 = d
    · rw [List.map_cons, List.filter_cons_of_neg (by simp [hp]),
        List.filter_cons_of_neg (by simp [hp]), ih]
    · rw [List.map_cons, List.filter_cons_of_pos (by simp [hp]),
        List.filter_cons_of_pos (by simp [hp]), List.map_cons, ih]

theorem sum_map_eq_const {α : Type} (l : List α) (f : α → Int) (c : Int)
    (h : ∀ x ∈ l, f x = c) : (l.map f).sum = c * (l.length : Int) := by
  induction l with
  | nil => simp
  | cons p rest ih =>
    simp only [List.map_cons, List.sum_cons, List.length_cons]
    rw [h p (by simp), ih (fun q hq => h q (by simp [hq]))]
    push_cast
    ring

theorem filter_ne_of_not_mem {α : Type} (l : List (String × α)) (d : String)
    (h : d ∉ l.map Prod.fst) : l.filter (fun p => ¬ p.1 = d) = l := by
  rw [List.filter_eq_self]
  intro q hq
  simp only [decide_eq_true_eq]
  intro he
  exact h (he ▸ List.mem_map_of_mem Prod.fst hq)

theorem filter_ne_length_int (l : List (String × Submission)) (d : String)
    (hnd : (l.map Prod.fst).Nodup) (hmem : d ∈ l.map Prod.fst) :
    ((l.filter (fun p => ¬ p.1 = d)).length : Int) = (l.length : Int) - 1 := by
  induction l with
  | nil => simp at hmem
  | cons p rest ih =>
    simp only [List.map_cons, List.nodup_cons] at hnd
    by_cases hp : p.1 = d
    · subst hp
      rw [List.filter_cons_of_neg (by simp)]
      rw [filter_ne_of_not_mem rest p.1 hnd.1]
      simp only [List.length_cons]
      push_cast
      ring
    · rw [List.filter_cons_of_pos (by simp [hp])]
      have hd : d ∈ rest.map Prod.fst := by
        rcases List.mem_cons.mp hmem with h | h
        · exact absurd h.symm hp
        · exact h
      simp only [List.length_cons]
      rw [Nat.cast_succ, Nat.cast_succ, ih hnd.2 hd]
      ring

/-! ## Settlement loop lemmas -/

theorem settleOne_dealer (d : String) (de : Option SectionEvals) (w : Bool)
    (sub : Submission) :
    settleOne d de w d sub =
      some (baseResult sub (evalOf sub) 0
        (addMismatch (noteFromParts []) true
          (if reportOr sub.report ≠ "none" ∧
              ¬ ((reportOf sub).ok = true ∧ (reportOf sub).bonus > 0) then true else false))
        0 0 0, 0) := by
  simp [settleOne]

theorem settleOne_contrib (d : String) (de : Option SectionEvals) (w : Bool)
    (id : String) (sub : Submission) (pr : PlayerResult) (c : Int)
    (h : settleOne d de w id sub = some (pr, c)) :
    (id ≠ d → c = -pr.total) ∧ (id = d → c = 0 ∧ pr.total = 0) := by
  by_cases hid : id = d
  · subst hid
    rw [settleOne_dealer] at h
    simp only [Option.some.injEq, Prod.mk.injEq] at h
    obtain ⟨hpr, hc⟩ := h
    refine ⟨fun hcon => absurd rfl hcon, fun _ => ⟨hc.symm, ?_⟩⟩
    rw [← hpr]
    rfl
  · refine ⟨fun _ => ?_, fun he => absurd he hid⟩
    rcases de with _ | de' <;>
      simp only [settleOne] at h <;>
      split_ifs at h <;>
      simp only [Option.some.injEq, Prod.mk.injEq] at h <;>
      try obtain ⟨hpr, hc⟩ := h
    all_goals
      rw [← hpr, ← hc]
      simp [reportEntryValid, baseResult]

theorem settleLoop_cons (d : String) (de : Option SectionEvals) (w : Bool)
    (id : String) (sub : Submission) (rest : List (String × Submission)) :
    settleLoop d de w ((id, sub) :: rest) =
      (settleOne d de w id sub).bind (fun one =>
        (settleLoop d de w rest).bind (fun r =>
          some ((id, one.1) :: r.1, one.2 + r.2))) := rfl

theorem settleLoop_net (d : String) (de : Option SectionEvals) (w : Bool)
    (l : List (String × Submission)) (res : List (String × PlayerResult)) (net : Int)
    (h : settleLoop d de w l = some (res, net)) :
    net + nonDealerTotalSum res d = 0 := by
  induction l generalizing res net with
  | nil =>
    simp only [settleLoop, Option.some.injEq, Prod.mk.injEq] at h
    obtain ⟨h1, h2⟩ := h
    simp [← h1, ← h2, nonDealerTotalSum]
  | cons p rest ih =>
    obtain ⟨id, sub⟩ := p
    rw [settleLoop_cons] at h
    cases h1 : settleOne d de w id sub with
    | none => rw [h1] at h; simp [Option.bind] at h
    | some one =>
      rw [h1] at h
      cases h2 : settleLoop d de w rest with
      | none => rw [h2] at h; simp [Option.bind] at h
      | some r =>
        rw [h2] at h
        simp only [Option.bind, Option.some.injEq, Prod.mk.injEq] at h
        obtain ⟨hres, hnet⟩ := h
        have hcontrib := settleOne_contrib d de w id sub one.1 one.2 (by rw [h1])
        have ihr := ih r.1 r.2 (by rw [h2])
        subst hres
        simp only [nonDealerTotalSum] at ihr ⊢
        by_cases hd : id = d
        · have h0 := hcontrib.2 hd
          have hc : (decide (¬ id = d)) = false := by simp [hd]
          simp only [List.filter_cons, hc, Bool.false_eq_true, if_false]
          omega
        · have hcn := hcontrib.1 hd
          have hc : (decide (¬ id = d)) = true := by simp [hd]
          simp only [List.filter_cons, hc, if_true, List.map_cons, List.sum_cons]
          omega

theorem settleLoop_keys (d : String) (de : Option SectionEvals) (w : Bool)
    (l : List (String × Submission)) (res : List (String × PlayerResult)) (net : Int)
    (h : settleLoop d de w l = some (res, net)) :
    res.map Prod.fst = l.map Prod.fst := by
  induction l generalizing res net with
  | nil =>
    simp only [settleLoop, Option.some.injEq, Prod.mk.injEq] at h
    simp [← h.1]
  | cons p rest ih =>
    obtain ⟨id, sub⟩ := p
    rw [settleLoop_cons] at h
    cases h1 : settleOne d de w id sub with
    | none => rw [h1] at h; simp [Option.bind] at h
    | some one =>
      rw [h1] at h
      cases h2 : settleLoop d de w rest with
      | none => rw [h2] at h; simp [Option.bind] at h
      | some r =>
        rw [h2] at h
        simp only [Option.bind, Option.some.injEq, Prod.mk.injEq] at h
        obtain ⟨hres, _⟩ := h
        subst hres
        simp only [List.map_cons]
        rw [ih r.1 r.2 (by rw [h2])]

theorem settleLoop_alookup (d : String) (de : Option SectionEvals) (w : Bool)
    (l : List (String × Submission)) (res : List (String × PlayerResult)) (net : Int)
    (k : String) (sub : Submission)
    (h : settleLoop d de w l = some (res, net))
    (hnd : (l.map Prod.fst).Nodup) (hmem : (k, sub) ∈ l) :
    ∃ pr c, settleOne d de w k sub = some (pr, c) ∧ alookup res k = some pr := by
  induction l generalizing res net with
  | nil => simp at hmem
  | cons p rest ih =>
    obtain ⟨id, sub'⟩ := p
    rw [settleLoop_cons] at h
    cases h1 : settleOne d de w id sub' with
    | none => rw [h1] at h; simp [Option.bind] at h
    | some one =>
      rw [h1] at h
      cases h2 : settleLoop d de w rest with
      | none => rw [h2] at h; simp [Option.bind] at h
      | some r =>
        rw [h2] at h
        simp only [Option.bind, Option.some.injEq, Prod.mk.injEq] at h
        obtain ⟨hres, _⟩ := h
        subst hres
        simp only [List.map_cons, List.nodup_cons] at hnd
        rcases List.mem_cons.mp hmem with he | hr
        · obtain ⟨h3, h4⟩ : id = k ∧ sub' = sub := by
            constructor <;> injection he.symm
          subst h3; subst h4
          refine ⟨one.1, one.2, ?_, ?_⟩
          · rw [h1]
          · simp [alookup]
        · have hk : ¬ id = k := by
            intro hik
            exact hnd.1 (hik ▸ List.mem_map_of_mem Prod.fst hr)
          obtain ⟨pr, c, hone, hlook⟩ := ih r.1 r.2 (by rw [h2]) hnd.2 hr
          refine ⟨pr, c, hone, ?_⟩
          simpa [alookup, hk] using hlook

/-! ## Dealer row patching lemmas -/

theorem patchDealer_alookup_ne (d : String) (n : Int) (w : Bool)
    (l : List (String × PlayerResult)) (k : String) (hk : ¬ k = d) :
    alookup (patchDealer d n w l) k = alookup l k := by
  induction l with
  | nil => rfl
  | cons p rest ih =>
    obtain ⟨p1, r⟩ := p
    by_cases hp : p1 = d
    · subst hp
      have hne : ¬ p1 = k := fun he => hk (he.symm)
      simp [patchDealer, alookup, hne]
    · simp only [patchDealer, if_neg hp]
      by_cases hpk : p1 = k
      · simp [alookup, hpk]
      · simp [alookup, hpk, ih]

theorem patchDealer_alookup_eq (d : String) (n : Int) (w : Bool)
    (l : List (String × PlayerResult)) (r : PlayerResult)
    (h : alookup l d = some r) :
    ∃ r', alookup (patchDealer d n w l) d = some r' ∧ r'.total = n ∧
      r'.perHead = r.perHead ∧ r'.perMid = r.perMid ∧ r'.perTail = r.perTail := by
  induction l with
  | nil => simp [alookup] at h
  | cons p rest ih =>
    obtain ⟨p1, pr⟩ := p
    by_cases hp : p1 = d
    · subst hp
      have hr : pr = r := by simpa [alookup] using h
      subst hr
      refine ⟨patchedRow n w pr, ?_, rfl, rfl, rfl, rfl⟩
      simp [patchDealer, alookup]
    · simp only [alookup, if_neg hp] at h
      obtain ⟨r', h1, h2⟩ := ih h
      refine ⟨r', ?_, h2⟩
      simp only [patchDealer, if_neg hp, alookup, if_neg hp]
      exact h1

theorem patchDealer_nds (d : String) (n : Int) (w : Bool)
    (l : List (String × PlayerResult)) :
    nonDealerTotalSum (patchDealer d n w l) d = nonDealerTotalSum l d := by
  induction l with
  | nil => rfl
  | cons p rest ih =>
    obtain ⟨p1, r⟩ := p
    by_cases hp : p1 = d
    · subst hp
      simp [patchDealer, nonDealerTotalSum, List.filter_cons]
    · have hc : (decide (¬ p1 = d)) = true := by simp [hp]
      simp only [patchDealer, if_neg hp, nonDealerTotalSum, List.filter_cons, hc, if_true,
        List.map_cons, List.sum_cons]
      simp only [nonDealerTotalSum] at ih
      omega

/-! ## Dealer-report branch lemmas -/

theorem reportLoop_entries (did : String) (B : Int) (l : List (String × Submission)) :
    (reportLoop did B l).1 =
      (l.filter (fun p => ¬ p.1 = did)).map
        (fun p => (p.1,
          if validReport p.2 = true then reportEntryValid p.2
          else reportEntryCharged B p.2)) := by
  induction l with
  | nil => rfl
  | cons p rest ih =>
    obtain ⟨id, sub⟩ := p
    by_cases hd : id = did
    · have hc : (decide (¬ id = did)) = false := by simp [hd]
      simp only [reportLoop, if_pos hd, List.filter_cons, hc, Bool.false_eq_true, if_false]
      exact ih
    · have hc : (decide (¬ id = did)) = true := by simp [hd]
      by_cases hv : validReport sub = true
      · simp only [reportLoop, if_neg hd, if_pos hv, List.filter_cons, hc, if_true,
          List.map_cons, hv]
        rw [ih]
      · simp only [reportLoop, if_neg hd, if_neg hv, List.filter_cons, hc, if_true,
          List.map_cons, if_neg hv]
        rw [ih]

theorem reportLoop_net_sum (did : String) (B : Int) (l : List (String × Submission)) :
    (reportLoop did B l).2.1 + ((reportLoop did B l).1.map (fun p => p.2.total)).sum = 0 := by
  induction l with
  | nil => simp [reportLoop]
  | cons p rest ih =>
    obtain ⟨id, sub⟩ := p
    by_cases hd : id = did
    · simpa [reportLoop, hd] using ih
    · by_cases hv : validReport sub = true
      · simp only [reportLoop, if_neg hd, if_pos hv, List.map_cons, List.sum_cons]
        have ht : (reportEntryValid sub).total = (reportOf sub).bonus := rfl
        rw [ht]
        omega
      · simp only [reportLoop, if_neg hd, if_neg hv, List.map_cons, List.sum_cons]
        have ht : (reportEntryCharged B sub).total = -B := rfl
        rw [ht]
        omega

theorem reportLoop_net_formula (did : String) (B : Int) (l : List (String × Submission)) :
    (reportLoop did B l).2.1 =
      B * (reportLoop did B l).2.2 -
        ((l.filter (fun p => ¬ p.1 = did ∧ validReport p.2 = true)).map
          (fun p => (reportOf p.2).bonus)).sum ∧
    (reportLoop did B l).2.2 =
      ((l.filter (fun p => ¬ p.1 = did ∧ validReport p.2 = false)).length : Int) := by
  induction l with
  | nil => simp [reportLoop]
  | cons p rest ih =>
    obtain ⟨id, sub⟩ := p
    by_cases hd : id = did
    · have hc1 : (decide (¬ id = did ∧ validReport sub = true)) = false := by simp [hd]
      have hc2 : (decide (¬ id = did ∧ validReport sub = false)) = false := by simp [hd]
      simp only [reportLoop, if_pos hd, List.filter_cons, hc1, hc2, Bool.false_eq_true,
        if_false]
      exact ih
    · by_cases hv : validReport sub = true
      · have hc1 : (decide (¬ id = did ∧ validReport sub = true)) = true := by simp [hd, hv]
        have hc2 : (decide (¬ id = did ∧ validReport sub = false)) = false := by
          simp [hd, hv]
        simp only [reportLoop, if_neg hd, if_pos hv, List.filter_cons, hc1, hc2, if_true,
          Bool.false_eq_true, if_false, List.map_cons, List.sum_cons]
        refine ⟨?_, ih.2⟩
        rw [ih.1]
        ring
      · have hc1 : (decide (¬ id = did ∧ validReport sub = true)) = false := by
          simp [hd, hv]
        have hc2 : (decide (¬ id = did ∧ validReport sub = false)) = true := by
          simp [hd]
          revert hv
          cases validReport sub <;> simp
        simp only [reportLoop, if_neg hd, if_neg hv, List.filter_cons, hc1, hc2, if_true,
          Bool.false_eq_true, if_false, List.length_cons]
        refine ⟨?_, ?_⟩
        · rw [ih.1, ih.2]
          ring
        · rw [ih.2]
          push_cast
          ring

/-! ## Branch characterization lemmas -/

theorem alookup_append_some {α : Type} {l1 l2 : List (String × α)} {k : String} {v : α}
    (h : alookup l1 k = some v) : alookup (l1 ++ l2) k = some v := by
  induction l1 with
  | nil => simp [alookup] at h
  | cons p rest ih =>
    by_cases hp : p.1 = k
    · simp only [alookup, if_pos hp] at h
      simp [alookup, hp, h]
    · simp only [alookup, if_neg hp] at h
      simp only [List.cons_append, alookup, if_neg hp]
      exact ih h

theorem alookup_append_none {α : Type} {l1 l2 : List (String × α)} {k : String}
    (h : alookup l1 k = none) : alookup (l1 ++ l2) k = alookup l2 k := by
  induction l1 with
  | nil => rfl
  | cons p rest ih =>
    by_cases hp : p.1 = k
    · simp [alookup, hp] at h
    · simp only [alookup, if_neg hp] at h
      simp only [List.cons_append, alookup, if_neg hp]
      exact ih h

/-- The dealer row of the sweep branch. -/
theorem sweep_lookup_dealer (subs : List (String × Submission)) (did : String)
    (ds : Submission) (B : Int) (hds : alookup subs did = some ds) :
    alookup (dealerReportSweep subs did B).results did =
      some (baseResult ds (evalOf ds) (B * ((subs.length : Int) - 1))
        ("莊家報到+" ++ toString B ++ "×" ++ toString ((subs.length : Int) - 1) ++
          "（本局只計報到）") 0 0 0) := by
  simp only [dealerReportSweep]
  rw [alookup_map_snd subs
    (fun k v => if k = did then
      baseResult v (evalOf v) (B * ((subs.length : Int) - 1))
        ("莊家報到+" ++ toString B ++ "×" ++ toString ((subs.length : Int) - 1) ++
          "（本局只計報到）") 0 0 0
      else reportEntryCharged B v) did, hds]
  simp

/-- A non-dealer row of the sweep branch. -/
theorem sweep_lookup_other (subs : List (String × Submission)) (did : String)
    (B : Int) (pid : String) (ps : Submission) (hpid : ¬ pid = did)
    (hps : alookup subs pid = some ps) :
    alookup (dealerReportSweep subs did B).results pid =
      some (reportEntryCharged B ps) := by
  simp only [dealerReportSweep]
  rw [alookup_map_snd subs
    (fun k v => if k = did then
      baseResult v (evalOf v) (B * ((subs.length : Int) - 1))
        ("莊家報到+" ++ toString B ++ "×" ++ toString ((subs.length : Int) - 1) ++
          "（本局只計報到）") 0 0 0
      else reportEntryCharged B v) pid, hps]
  simp [hpid]

/-- The non-dealer totals of the sweep branch sum to −B·(n−1). -/
theorem sweep_nds (subs : List (String × Submission)) (did : String) (ds : Submission)
    (B : Int) (hnd : (subs.map Prod.fst).Nodup) (hds : alookup subs did = some ds) :
    nonDealerTotalSum (dealerReportSweep subs did B).results did =
      -B * ((subs.length : Int) - 1) := by
  have hmemd : (did, ds) ∈ subs := alookup_mem hds
  simp only [dealerReportSweep, nonDealerTotalSum]
  rw [filter_map_key subs
    (fun k v => if k = did then
      baseResult v (evalOf v) (B * ((subs.length : Int) - 1))
        ("莊家報到+" ++ toString B ++ "×" ++ toString ((subs.length : Int) - 1) ++
          "（本局只計報到）") 0 0 0
      else reportEntryCharged B v) did]
  rw [List.map_map]
  rw [sum_map_eq_const _ _ (-B)]
  · rw [filter_ne_length_int subs did hnd (List.mem_map_of_mem Prod.fst hmemd)]
  · intro p hp
    have hp1 : ¬ p.1 = did := by
      have := List.of_mem_filter hp
      simpa using this
    simp only [Function.comp, if_neg hp1]
    rfl

/-- Every row of the sweep branch has zero per-section scores. -/
theorem sweep_pers (subs : List (String × Submission)) (did : String) (B : Int) :
    ∀ p ∈ (dealerReportSweep subs did B).results,
      p.2.perHead = 0 ∧ p.2.perMid = 0 ∧ p.2.perTail = 0 := by
  intro p hp
  simp only [dealerReportSweep] at hp
  obtain ⟨q, _, hqp⟩ := List.mem_map.mp hp
  rw [← hqp]
  by_cases hq : q.1 = did
  · simp [hq, baseResult]
  · simp [hq, reportEntryCharged, baseResult]

/-- The dealer row of the mixed branch. -/
theorem mixed_lookup_dealer (subs : List (String × Submission)) (did : String)
    (ds : Submission) (B : Int) :
    alookup (dealerReportMixed subs did ds B).results did =
      some (baseResult ds (evalOf ds) (reportLoop did B subs).2.1
        ("莊家報到+" ++ toString B ++ "×" ++ toString (reportLoop did B subs).2.2 ++
          "（已扣除閒家報到；本局只計報到）") 0 0 0) := by
  simp only [dealerReportMixed]
  have hkeys : alookup (reportLoop did B subs).1 did = none := by
    rw [reportLoop_entries,
      alookup_map_snd _ (fun _ v => if validReport v = true then reportEntryValid v
        else reportEntryCharged B v) did,
      alookup_filter_ne]
    simp
  rw [alookup_append_none hkeys]
  simp [alookup]

/-- A non-dealer row of the mixed branch. -/
theorem mixed_lookup_other (subs : List (String × Submission)) (did : String)
    (ds : Submission) (B : Int) (pid : String) (ps : Submission) (hpid : ¬ pid = did)
    (hps : alookup subs pid = some ps) :
    alookup (dealerReportMixed subs did ds B).results pid =
      some (if validReport ps = true then reportEntryValid ps
        else reportEntryCharged B ps) := by
  simp only [dealerReportMixed]
  refine alookup_append_some ?_
  rw [reportLoop_entries,
    alookup_map_snd _ (fun _ v => if validReport v = true then reportEntryValid v
      else reportEntryCharged B v) pid,
    alookup_filter_ne]
  simp [hpid, hps]

/-- The mixed-branch dealer net plus the other totals is zero. -/
theorem mixed_nds (subs : List (String × Submission)) (did : String)
    (ds : Submission) (B : Int) :
    (reportLoop did B subs).2.1 +
      nonDealerTotalSum (dealerReportMixed subs did ds B).results did = 0 := by
  have hkeys : ∀ p ∈ (reportLoop did B subs).1, ¬ p.1 = did := by
    intro p hp
    rw [reportLoop_entries] at hp
    obtain ⟨q, hq, hqp⟩ := List.mem_map.mp hp
    have := List.of_mem_filter hq
    simp only [decide_eq_true_eq] at this
    rw [← hqp]
    exact this
  simp only [dealerReportMixed, nonDealerTotalSum, List.filter_append]
  rw [List.filter_eq_self.mpr (by intro q hq; simpa using hkeys q hq)]
  rw [show (List.filter (fun p => decide (¬ p.1 = did))
      [(did, baseResult ds (evalOf ds) (reportLoop did B subs).2.1
        ("莊家報到+" ++ toString B ++ "×" ++ toString (reportLoop did B subs).2.2 ++
          "（已扣除閒家報到；本局只計報到）") 0 0 0)]) = [] from by simp]
  rw [List.append_nil]
  exact reportLoop_net_sum did B subs

/-- Every row of the mixed branch has zero per-section scores. -/
theorem mixed_pers (subs : List (String × Submission)) (did : String)
    (ds : Submission) (B : Int) :
    ∀ p ∈ (dealerReportMixed subs did ds B).results,
      p.2.perHead = 0 ∧ p.2.perMid = 0 ∧ p.2.perTail = 0 := by
  intro p hp
  simp only [dealerReportMixed] at hp
  rcases List.mem_append.mp hp with hl | hr
  · rw [reportLoop_entries] at hl
    obtain ⟨q, _, hqp⟩ := List.mem_map.mp hl
    rw [← hqp]
    by_cases hv : validReport q.2 = true
    · simp [hv, reportEntryValid, baseResult]
    · simp [hv, reportEntryCharged, baseResult]
  · simp only [List.mem_singleton] at hr
    rw [hr]
    simp [baseResult]

/-- Unfolds `computeRoundResult` to `settleWithDealer` once a dealer id is
determined. -/
theorem computeRoundResult_to_settle (subs : List (String × Submission))
    (ov : Option String) (res : RoundResult) (did : String)
    (hne : subs ≠ [])
    (hdid : (match ov with
      | some d => some d
      | none => computeDealerIdFromSubmissions subs) = some did)
    (hres : computeRoundResult subs ov = some res) :
    settleWithDealer subs did = some res := by
  have hie : subs.isEmpty = false := by
    cases subs with
    | nil => exact absurd rfl hne
    | cons a l => rfl
  unfold computeRoundResult at hres
  rw [hie] at hres
  simp only [Bool.false_eq_true, if_false] at hres
  rw [hdid] at hres
  exact hres

/-- Unfolds `settleWithDealer` when the dealer has a submission. -/
theorem settleWithDealer_some (subs : List (String × Submission)) (did : String)
    (ds : Submission) (hds : alookup subs did = some ds) :
    settleWithDealer subs did =
      (if validReport ds = true then
        if hasNonDealerReportOk subs did = false then
          some (dealerReportSweep subs did (reportOf ds).bonus)
        else some (dealerReportMixed subs did ds (reportOf ds).bonus)
      else mainSettle subs did (some ds)) := by
  unfold settleWithDealer
  rw [hds]

/-! ## C1: zero-sum settlement -/

/-- C1: for every submission map on which settlement returns a result (ids
distinct; the override, when present, names a submitted id), the dealer's
row total is the arithmetic negation of the sum of all non-dealer row
totals, across all settlement branches. -/
theorem c1_settlement_zero_sum (subs : List (String × Submission)) (ov : Option String)
    (res : RoundResult)
    (hnd : (subs.map Prod.fst).Nodup)
    (hov : ∀ d, ov = some d → (alookup subs d).isSome = true)
    (hres : computeRoundResult subs ov = some res) :
    ∃ pr, alookup res.results res.dealerId = some pr ∧
      pr.total + nonDealerTotalSum res.results res.dealerId = 0 := by
  have hne : subs ≠ [] := by
    intro h
    subst h
    simp [computeRoundResult] at hres
  obtain ⟨did, hdid, hsome⟩ :
      ∃ did, (match ov with
        | some d => some d
        | none => computeDealerIdFromSubmissions subs) = some did ∧
        (alookup subs did).isSome = true := by
    rcases ov with _ | d
    · obtain ⟨w, wsub, hw, hlook, _⟩ := c5_dealer_selection subs hne hnd
      exact ⟨w, hw, by rw [hlook]; rfl⟩
    · exact ⟨d, rfl, hov d rfl⟩
  have hresd := computeRoundResult_to_settle subs ov res did hne hdid hres
  rw [Option.isSome_iff_exists] at hsome
  obtain ⟨ds, hds⟩ := hsome
  have hmemd : (did, ds) ∈ subs := alookup_mem hds
  rw [settleWithDealer_some subs did ds hds] at hresd
  by_cases hvr : validReport ds = true
  · rw [if_pos hvr] at hresd
    by_cases hndr : hasNonDealerReportOk subs did = false
    · rw [if_pos hndr] at hresd
      injection hresd with hresd
      subst hresd
      show ∃ pr, alookup (dealerReportSweep subs did (reportOf ds).bonus).results did =
        some pr ∧ pr.total +
          nonDealerTotalSum (dealerReportSweep subs did (reportOf ds).bonus).results did = 0
      refine ⟨_, sweep_lookup_dealer subs did ds (reportOf ds).bonus hds, ?_⟩
      rw [sweep_nds subs did ds (reportOf ds).bonus hnd hds]
      simp only [baseResult]
      ring
    · rw [if_neg hndr] at hresd
      injection hresd with hresd
      subst hresd
      show ∃ pr, alookup (dealerReportMixed subs did ds (reportOf ds).bonus).results did =
        some pr ∧ pr.total +
          nonDealerTotalSum (dealerReportMixed subs did ds (reportOf ds).bonus).results did = 0
      refine ⟨_, mixed_lookup_dealer subs did ds (reportOf ds).bonus, ?_⟩
      have := mixed_nds subs did ds (reportOf ds).bonus
      simp only [baseResult] at this ⊢
      omega
  · rw [if_neg hvr] at hresd
    rw [mainSettle] at hresd
    cases hsl : settleLoop did ((some ds).map evalOf)
        (match some ds with | some ds => isWulong ds | none => false) subs with
    | none => rw [hsl] at hresd; simp at hresd
    | some r =>
      rw [hsl] at hresd
      simp only [Option.some.injEq] at hresd
      subst hresd
      obtain ⟨pr0, c0, hone, hlook0⟩ := settleLoop_alookup _ _ _ subs r.1 r.2 did ds
        (by rw [hsl]) hnd hmemd
      obtain ⟨r', hlook', htot', _, _, _⟩ := patchDealer_alookup_eq did r.2
        (match some ds with | some ds => isWulong ds | none => false) r.1 pr0 hlook0
      refine ⟨r', hlook', ?_⟩
      rw [htot', patchDealer_nds]
      exact settleLoop_net _ _ _ subs r.1 r.2 (by rw [hsl])

/-- Witness for the C1 theorem on a concrete three-player round containing a
foul and normal scoring, with the dealer chosen by select-card comparison. -/
theorem c1_witness :
    ∃ res pr,
      computeRoundResult [("a", witSubA), ("b", witSubB), ("c", witSubC)] none = some res ∧
      alookup res.results res.dealerId = some pr ∧
      pr.total + nonDealerTotalSum res.results res.dealerId = 0 := by
  cases hres : computeRoundResult [("a", witSubA), ("b", witSubB), ("c", witSubC)] none with
  | none =>
    have h : (computeRoundResult [("a", witSubA), ("b", witSubB), ("c", witSubC)]
        none).isSome = true := by decide
    rw [hres] at h
    exact absurd h (by decide)
  | some res =>
    obtain ⟨pr, h1, h2⟩ := c1_settlement_zero_sum
      [("a", witSubA), ("b", witSubB), ("c", witSubC)] none res
      (by decide) (fun d h => nomatch h) hres
    exact ⟨res, pr, rfl, h1, h2⟩

/-! ## C2: validated dealer report round -/

/-- C2: when the dealer's own report validates, no section scoring occurs in
the round; each non-dealer whose own report validates is paid exactly their
bonus, every other non-dealer is charged the dealer's bonus, and the
dealer's total is the dealer bonus times the number of charged non-dealers
minus the paid-out bonuses — the negation of the sum of the other totals. -/
theorem c2_dealer_report_round (subs : List (String × Submission)) (did : String)
    (ds : Submission) (res : RoundResult)
    (hnd : (subs.map Prod.fst).Nodup)
    (hds : alookup subs did = some ds)
    (hvr : validReport ds = true)
    (hres : computeRoundResult subs (some did) = some res) :
    res.dealerId = did ∧
    (∀ p ∈ res.results, p.2.perHead = 0 ∧ p.2.perMid = 0 ∧ p.2.perTail = 0) ∧
    (∀ pid ps, ¬ pid = did → alookup subs pid = some ps →
      ∃ pr, alookup res.results pid = some pr ∧
        pr.total = (if validReport ps = true then (reportOf ps).bonus
          else -(reportOf ds).bonus)) ∧
    (∃ dpr, alookup res.results did = some dpr ∧
      dpr.total = (reportOf ds).bonus *
          ((subs.filter (fun p => ¬ p.1 = did ∧ validReport p.2 = false)).length : Int) -
        ((subs.filter (fun p => ¬ p.1 = did ∧ validReport p.2 = true)).map
          (fun p => (reportOf p.2).bonus)).sum ∧
      dpr.total + nonDealerTotalSum res.results did = 0) := by
  have hne : subs ≠ [] := by
    intro h
    subst h
    simp [alookup] at hds
  have hresd := computeRoundResult_to_settle subs (some did) res did hne rfl hres
  rw [settleWithDealer_some subs did ds hds, if_pos hvr] at hresd
  by_cases hndr : hasNonDealerReportOk subs did = false
  · rw [if_pos hndr] at hresd
    injection hresd with hresd
    subst hresd
    have hnone : ∀ q ∈ subs, ¬ q.1 = did → validReport q.2 = false := by
      intro q hq hq1
      by_cases hvq : validReport q.2 = true
      · have habs : hasNonDealerReportOk subs did = true := by
          simp only [hasNonDealerReportOk, List.any_eq_true]
          exact ⟨q, hq, by simp [hq1, hvq]⟩
        rw [habs] at hndr
        cases hndr
      · revert hvq
        cases validReport q.2 <;> simp
    refine ⟨rfl, sweep_pers subs did (reportOf ds).bonus, ?_, ?_⟩
    · intro pid ps hpid hps
      refine ⟨reportEntryCharged (reportOf ds).bonus ps,
        sweep_lookup_other subs did (reportOf ds).bonus pid ps hpid hps, ?_⟩
      rw [hnone (pid, ps) (alookup_mem hps) hpid]
      simp [reportEntryCharged, baseResult]
    · have hvalidnil :
          subs.filter (fun p => ¬ p.1 = did ∧ validReport p.2 = true) = [] := by
        rw [List.filter_eq_nil_iff]
        intro q hq
        simp only [decide_eq_true_eq, not_and]
        intro hq1
        rw [hnone q hq hq1]
        simp
      have hsamefilter :
          subs.filter (fun p => ¬ p.1 = did ∧ validReport p.2 = false) =
            subs.filter (fun p => ¬ p.1 = did) := by
        apply List.filter_congr
        intro q hq
        by_cases hq1 : q.1 = did
        · simp [hq1]
        · simp [hq1, hnone q hq hq1]
      refine ⟨_, sweep_lookup_dealer subs did ds (reportOf ds).bonus hds, ?_, ?_⟩
      · rw [hvalidnil, hsamefilter,
          filter_ne_length_int subs did hnd
            (List.mem_map_of_mem Prod.fst (alookup_mem hds))]
        simp [baseResult]
      · rw [sweep_nds subs did ds (reportOf ds).bonus hnd hds]
        simp only [baseResult]
        ring
  · rw [if_neg hndr] at hresd
    injection hresd with hresd
    subst hresd
    refine ⟨rfl, mixed_pers subs did ds (reportOf ds).bonus, ?_, ?_⟩
    · intro pid ps hpid hps
      refine ⟨_, mixed_lookup_other subs did ds (reportOf ds).bonus pid ps hpid hps, ?_⟩
      by_cases hv : validReport ps = true
      · simp [hv, reportEntryValid, baseResult]
      · simp [hv, reportEntryCharged, baseResult]
    · refine ⟨_, mixed_lookup_dealer subs did ds (reportOf ds).bonus, ?_, ?_⟩
      · have hf := reportLoop_net_formula did (reportOf ds).bonus subs
        simp only [baseResult]
        rw [hf.1, hf.2]
      · have := mixed_nds subs did ds (reportOf ds).bonus
        simp only [baseResult] at this ⊢
        omega

/-- Witness for the C2 theorem: dealer `allRed` validates, one non-dealer
`fourKind` validates with bonus 10, one plain non-dealer is charged 5. -/
theorem c2_witness :
    ∃ res, computeRoundResult [("d", witSubD), ("e", witSubE), ("f", witSubF)]
        (some "d") = some res ∧
      res.dealerId = "d" ∧
      (∀ p ∈ res.results, p.2.perHead = 0 ∧ p.2.perMid = 0 ∧ p.2.perTail = 0) := by
  cases hres : computeRoundResult [("d", witSubD), ("e", witSubE), ("f", witSubF)]
      (some "d") with
  | none =>
    have h : (computeRoundResult [("d", witSubD), ("e", witSubE), ("f", witSubF)]
        (some "d")).isSome = true := by decide
    rw [hres] at h
    exact absurd h (by decide)
  | some res =>
    obtain ⟨h1, h2, _, _⟩ := c2_dealer_report_round
      [("d", witSubD), ("e", witSubE), ("f", witSubF)] "d" witSubD res
      (by decide) (by decide) (by decide) hres
    exact ⟨res, rfl, h1, h2⟩

/-! ## C10: dealer foul auto-win -/

/-- C10: when the dealer's arrangement fouls (with no validated dealer
report), every non-dealer who neither fouled nor claimed a report wins all
three sections at their own win-values. -/
theorem c10_dealer_foul_autowin (subs : List (String × Submission)) (did : String)
    (ds : Submission) (res : RoundResult) (pid : String) (ps : Submission)
    (hnd : (subs.map Prod.fst).Nodup)
    (hds : alookup subs did = some ds)
    (hdf : (foulOf ds).foul = true)
    (hdr : validReport ds = false)
    (hpid : ¬ pid = did)
    (hps : alookup subs pid = some ps)
    (hpf : (foulOf ps).foul = false)
    (hprep : reportOr ps.report = "none")
    (hres : computeRoundResult subs (some did) = some res) :
    ∃ pr, alookup res.results pid = some pr ∧
      pr.perHead = headWinPoints (eval2 ps.head) ∧
      pr.perMid = midWinPoints (eval3 ps.mid) ∧
      pr.perTail = tailWinPoints (eval3 ps.tail) ∧
      pr.total = headWinPoints (eval2 ps.head) + midWinPoints (eval3 ps.mid) +
        tailWinPoints (eval3 ps.tail) := by
  have hne : subs ≠ [] := by
    intro h
    subst h
    simp [alookup] at hds
  have hresd := computeRoundResult_to_settle subs (some did) res did hne rfl hres
  rw [settleWithDealer_some subs did ds hds, if_neg (by simp [hdr])] at hresd
  have hw : isWulong ds = true := by
    simp [isWulong, hdr, hdf]
  have hwps : isWulong ps = false := by
    simp [isWulong, hprep, hpf]
  have hvps : validReport ps = false := by
    simp [validReport, hprep]
  rw [mainSettle] at hresd
  rw [hw] at hresd
  cases hsl : settleLoop did ((some ds).map evalOf) true subs with
  | none => rw [hsl] at hresd; simp at hresd
  | some r =>
    rw [hsl] at hresd
    simp only [Option.some.injEq] at hresd
    subst hresd
    obtain ⟨pr0, c0, hone, hlook0⟩ := settleLoop_alookup did ((some ds).map evalOf) true
      subs r.1 r.2 pid ps (by rw [hsl]) hnd (alookup_mem hps)
    have hcomp : settleOne did ((some ds).map evalOf) true pid ps =
        some (baseResult ps (evalOf ps)
          (headWinPoints (evalOf ps).head + midWinPoints (evalOf ps).mid +
            tailWinPoints (evalOf ps).tail)
          (addMismatch (noteFromParts ["莊家失誤：三墩全勝"]) false
            (if reportOr ps.report ≠ "none" ∧
                ¬ ((reportOf ps).ok = true ∧ (reportOf ps).bonus > 0) then true else false))
          (headWinPoints (evalOf ps).head) (midWinPoints (evalOf ps).mid)
          (tailWinPoints (evalOf ps).tail),
          -(headWinPoints (evalOf ps).head + midWinPoints (evalOf ps).mid +
            tailWinPoints (evalOf ps).tail)) := by
      simp only [settleOne, hwps]
      rw [if_neg (by simp), if_neg (by simp [hvps]), if_pos hpid]
      simp
    rw [hcomp] at hone
    simp only [Option.some.injEq, Prod.mk.injEq] at hone
    obtain ⟨hpr0, _⟩ := hone
    show ∃ pr, alookup (patchDealer did r.2 true r.1) pid = some pr ∧ _
    rw [patchDealer_alookup_ne did r.2 true r.1 pid hpid, hlook0, ← hpr0]
    exact ⟨_, rfl, rfl, rfl, rfl, rfl⟩

/-- Witness for the C10 theorem: the dealer fouls and the clean non-dealer
wins all three sections at win-values 1/1/1. -/
theorem c10_witness :
    ∃ res pr,
      computeRoundResult [("g", witSubG), ("b", witSubB)] (some "g") = some res ∧
      alookup res.results "b" = some pr ∧
      pr.perHead = headWinPoints (eval2 witSubB.head) ∧
      pr.perMid = midWinPoints (eval3 witSubB.mid) ∧
      pr.perTail = tailWinPoints (eval3 witSubB.tail) ∧
      pr.total = headWinPoints (eval2 witSubB.head) + midWinPoints (eval3 witSubB.mid) +
        tailWinPoints (eval3 witSubB.tail) := by
  cases hres : computeRoundResult [("g", witSubG), ("b", witSubB)] (some "g") with
  | none =>
    have h : (computeRoundResult [("g", witSubG), ("b", witSubB)]
        (some "g")).isSome = true := by decide
    rw [hres] at h
    exact absurd h (by decide)
  | some res =>
    obtain ⟨pr, h1, h2⟩ := c10_dealer_foul_autowin [("g", witSubG), ("b", witSubB)]
      "g" witSubG res "b" witSubB
      (by decide) (by decide) (by decide) (by decide) (by decide) (by decide)
      (by decide) (by decide) hres
    exact ⟨res, pr, rfl, h1, h2⟩


/-! ## C9: dealer-pick controller -/

/-- The lowest-id result of `minStr` is the seed or one of the listed ids. -/
theorem minStr_eq_or_mem (m : String) (l : List String) :
    minStr m l = m ∨ minStr m l ∈ l := by
  induction l generalizing m with
  | nil => exact Or.inl rfl
  | cons x xs ih =>
    simp only [minStr]
    by_cases hx : x < m
    · rw [if_pos hx]
      rcases ih x with h | h
      · exact Or.inr (by rw [h]; exact List.mem_cons_self x xs)
      · exact Or.inr (List.mem_cons_of_mem x h)
    · rw [if_neg hx]
      rcases ih m with h | h
      · exact Or.inl h
      · exact Or.inr (List.mem_cons_of_mem x h)

/-- `minStr` is a lower bound of the seed and the listed ids. -/
theorem minStr_le (m : String) (l : List String) :
    minStr m l ≤ m ∧ ∀ x ∈ l, minStr m l ≤ x := by
  induction l generalizing m with
  | nil => exact ⟨le_refl m, fun x hx => absurd hx (List.not_mem_nil x)⟩
  | cons y ys ih =>
    simp only [minStr]
    by_cases hy : y < m
    · rw [if_pos hy]
      obtain ⟨h1, h2⟩ := ih y
      refine ⟨le_trans h1 (le_of_lt hy), fun x hx => ?_⟩
      rcases List.mem_cons.mp hx with rfl | hx
      · exact h1
      · exact h2 x hx
    · rw [if_neg hy]
      obtain ⟨h1, h2⟩ := ih m
      refine ⟨h1, fun x hx => ?_⟩
      rcases List.mem_cons.mp hx with rfl | hx
      · exact le_trans h1 (not_lt.mp hy)
      · exact h2 x hx

/-- Unfolding of `findDealerPickController` through its local predicate. -/
theorem findDPC_bj (subs : List (String × Submission)) (ids : List String)
    (b : String) (bs : List String)
    (h : ids.filter (fun id => match alookup subs id with
        | some s => if s.dealerCard.s = "J" ∧ s.dealerCard.j = "BJ" then true else false
        | none => false) = b :: bs) :
    findDealerPickController subs ids = some (minStr b bs, "BJ") := by
  have he : findDealerPickController subs ids =
      match ids.filter (fun id => match alookup subs id with
        | some s => if s.dealerCard.s = "J" ∧ s.dealerCard.j = "BJ" then true else false
        | none => false) with
      | b :: bs => some (minStr b bs, "BJ")
      | [] =>
        match ids.filter (fun id => match alookup subs id with
          | some s => if s.dealerCard.s = "J" ∧ s.dealerCard.j = "SJ" then true else false
          | none => false) with
        | s :: ss => some (minStr s ss, "SJ")
        | [] => none := rfl
  rw [he, h]

/-- Unfolding of `findDealerPickController` when no one submitted the big
joker but someone submitted the small joker. -/
theorem findDPC_sj (subs : List (String × Submission)) (ids : List String)
    (s : String) (ss : List String)
    (hbj : ids.filter (fun id => match alookup subs id with
        | some s => if s.dealerCard.s = "J" ∧ s.dealerCard.j = "BJ" then true else false
        | none => false) = [])
    (hsj : ids.filter (fun id => match alookup subs id with
        | some s => if s.dealerCard.s = "J" ∧ s.dealerCard.j = "SJ" then true else false
        | none => false) = s :: ss) :
    findDealerPickController subs ids = some (minStr s ss, "SJ") := by
  have he : findDealerPickController subs ids =
      match ids.filter (fun id => match alookup subs id with
        | some s => if s.dealerCard.s = "J" ∧ s.dealerCard.j = "BJ" then true else false
        | none => false) with
      | b :: bs => some (minStr b bs, "BJ")
      | [] =>
        match ids.filter (fun id => match alookup subs id with
          | some s => if s.dealerCard.s = "J" ∧ s.dealerCard.j = "SJ" then true else false
          | none => false) with
        | s :: ss => some (minStr s ss, "SJ")
        | [] => none := rfl
  rw [he, hbj, hsj]

/-- Unfolding of `findDealerPickController` when no one submitted a joker. -/
theorem findDPC_none (subs : List (String × Submission)) (ids : List String)
    (hbj : ids.filter (fun id => match alookup subs id with
        | some s => if s.dealerCard.s = "J" ∧ s.dealerCard.j = "BJ" then true else false
        | none => false) = [])
    (hsj : ids.filter (fun id => match alookup subs id with
        | some s => if s.dealerCard.s = "J" ∧ s.dealerCard.j = "SJ" then true else false
        | none => false) = []) :
    findDealerPickController subs ids = none := by
  have he : findDealerPickController subs ids =
      match ids.filter (fun id => match alookup subs id with
        | some s => if s.dealerCard.s = "J" ∧ s.dealerCard.j = "BJ" then true else false
        | none => false) with
      | b :: bs => some (minStr b bs, "BJ")
      | [] =>
        match ids.filter (fun id => match alookup subs id with
          | some s => if s.dealerCard.s = "J" ∧ s.dealerCard.j = "SJ" then true else false
          | none => false) with
        | s :: ss => some (minStr s ss, "SJ")
        | [] => none := rfl
  rw [he, hbj, hsj]

/-- C9 (amended): once every participant has a submission, the controller is
chosen by the submitted dealer-selection card: if some participant submitted
the big joker as their dealer-selection card, the lowest-id such submitter
becomes the pick controller, otherwise the lowest-id small-joker
submitter, otherwise the round reveals immediately; the pick request goes
only to the controller and every other connected client gets a wait
notice. -/
theorem c9_dealer_pick_controller (clients participants : List String)
    (subs : List (String × Submission))
    (hne : participants.isEmpty = false)
    (hall : participants.all (fun id => (alookup subs id).isSome) = true) :
    (∀ b bs, participants.filter (fun id => match alookup subs id with
        | some s => if s.dealerCard.s = "J" ∧ s.dealerCard.j = "BJ" then true else false
        | none => false) = b :: bs →
      minStr b bs ∈ clients →
      startDealerPickOrReveal clients participants subs =
        .pick (minStr b bs) "BJ"
          (⟨minStr b bs, "dealerPickStart"⟩ ::
            (clients.filter (fun c => c ≠ minStr b bs)).map
              (fun c => ⟨c, "dealerPickWait"⟩)) ∧
      minStr b bs ∈ b :: bs ∧
      (∀ x ∈ b :: bs, ¬ x < minStr b bs)) ∧
    (participants.filter (fun id => match alookup subs id with
        | some s => if s.dealerCard.s = "J" ∧ s.dealerCard.j = "BJ" then true else false
        | none => false) = [] →
      ∀ sj ss, participants.filter (fun id => match alookup subs id with
        | some s => if s.dealerCard.s = "J" ∧ s.dealerCard.j = "SJ" then true else false
        | none => false) = sj :: ss →
      minStr sj ss ∈ clients →
      startDealerPickOrReveal clients participants subs =
        .pick (minStr sj ss) "SJ"
          (⟨minStr sj ss, "dealerPickStart"⟩ ::
            (clients.filter (fun c => c ≠ minStr sj ss)).map
              (fun c => ⟨c, "dealerPickWait"⟩)) ∧
      minStr sj ss ∈ sj :: ss ∧
      (∀ x ∈ sj :: ss, ¬ x < minStr sj ss)) ∧
    (participants.filter (fun id => match alookup subs id with
        | some s => if s.dealerCard.s = "J" ∧ s.dealerCard.j = "BJ" then true else false
        | none => false) = [] →
      participants.filter (fun id => match alookup subs id with
        | some s => if s.dealerCard.s = "J" ∧ s.dealerCard.j = "SJ" then true else false
        | none => false) = [] →
      startDealerPickOrReveal clients participants subs = .reveal) := by
  refine ⟨?_, ?_, ?_⟩
  · intro b bs hbj hc
    refine ⟨?_, ?_, ?_⟩
    · unfold startDealerPickOrReveal
      rw [if_neg (by simp [hne]), if_neg (by simp [hall]),
        findDPC_bj subs participants b bs hbj]
      exact if_pos hc
    · rcases minStr_eq_or_mem b bs with h | h
      · rw [h]
        exact List.mem_cons_self b bs
      · exact List.mem_cons_of_mem b h
    · intro x hx
      obtain ⟨h1, h2⟩ := minStr_le b bs
      rcases List.mem_cons.mp hx with rfl | hx
      · exact not_lt.mpr h1
      · exact not_lt.mpr (h2 x hx)
  · intro hbj sj ss hsj hc
    refine ⟨?_, ?_, ?_⟩
    · unfold startDealerPickOrReveal
      rw [if_neg (by simp [hne]), if_neg (by simp [hall]),
        findDPC_sj subs participants sj ss hbj hsj]
      exact if_pos hc
    · rcases minStr_eq_or_mem sj ss with h | h
      · rw [h]
        exact List.mem_cons_self sj ss
      · exact List.mem_cons_of_mem sj h
    · intro x hx
      obtain ⟨h1, h2⟩ := minStr_le sj ss
      rcases List.mem_cons.mp hx with rfl | hx
      · exact not_lt.mpr h1
      · exact not_lt.mpr (h2 x hx)
  · intro hbj hsj
    unfold startDealerPickOrReveal
    rw [if_neg (by simp [hne]), if_neg (by simp [hall]),
      findDPC_none subs participants hbj hsj]

/-- Counterexample refuting C9 as stated: a participant holds the big joker
buried in their mid section, yet the round reveals immediately with no
dealer-pick phase, because only the submitted dealer-selection card is
inspected. -/
theorem c9_counterexample :
    holdsBigJoker buriedJokerSub = true ∧
    startDealerPickOrReveal ["p1"] ["p1"] [("p1", buriedJokerSub)] = .reveal :=
  ⟨rfl, rfl⟩

/-- Witness for the amended C9 theorem: a single participant submitting the
big joker as dealer-selection card becomes the controller and is the only
recipient of the pick request. -/
theorem c9_witness :
    (["p1"].filter (fun id => match alookup [("p1", bjDealerSub)] id with
        | some s => if s.dealerCard.s = "J" ∧ s.dealerCard.j = "BJ" then true else false
        | none => false) = ["p1"]) ∧
    startDealerPickOrReveal ["p1"] ["p1"] [("p1", bjDealerSub)] =
      .pick "p1" "BJ" [⟨"p1", "dealerPickStart"⟩] := by
  refine ⟨by decide, ?_⟩
  have h := (c9_dealer_pick_controller ["p1"] ["p1"] [("p1", bjDealerSub)]
    (by decide) (by decide)).1 "p1" [] (by decide) (by decide)
  exact h.1

/-! ## C8: submission validation -/

/-- Every card of the canonical deck is canonical. -/
theorem deck54_canonical : ∀ c ∈ deck54, canonicalCard c := by
  simp only [canonicalCard]
  decide

/-- The keys of the canonical deck are pairwise distinct. -/
theorem deck54_keys_nodup : (deck54.map cardKey).Nodup := by decide

/-- Every in-range rank is listed in `rankList`. -/
theorem mem_rankList (r : Int) (h2 : 2 ≤ r) (h14 : r ≤ 14) : r ∈ rankList := by
  interval_cases r <;> decide

/-- Every canonical card is in the canonical deck. -/
theorem mem_deck54_of_canonical (c : Card) (h : canonicalCard c) : c ∈ deck54 := by
  obtain ⟨r, s, j⟩ := c
  unfold canonicalCard normalizeCard at h
  dsimp only at h
  by_cases hs : s = "J"
  · rw [if_pos hs] at h
    by_cases hj : j = "BJ" ∨ j = "SJ"
    · rw [if_pos hj] at h
      rcases hj with hj | hj
      · subst hj
        rw [if_pos rfl] at h
        simp only [Option.some.injEq, Card.mk.injEq] at h
        obtain ⟨h1, h2, -⟩ := h
        rw [← h1, ← h2]
        exact List.mem_cons_self _ _
      · subst hj
        rw [if_neg (by decide)] at h
        simp only [Option.some.injEq, Card.mk.injEq] at h
        obtain ⟨h1, h2, -⟩ := h
        rw [← h1, ← h2]
        exact List.mem_cons_of_mem _ (List.mem_cons_self _ _)
    · rw [if_neg hj] at h
      cases h
  · rw [if_neg hs] at h
    split_ifs at h with hcond
    · obtain ⟨h2, h14, hsu⟩ := hcond
      simp only [Option.some.injEq, Card.mk.injEq] at h
      obtain ⟨-, -, hjj⟩ := h
      subst hjj
      apply List.mem_cons_of_mem
      apply List.mem_cons_of_mem
      rw [List.mem_join]
      exact ⟨rankList.map (fun r => ⟨r, s, ""⟩),
        List.mem_map_of_mem _ hsu, List.mem_map_of_mem _ (mem_rankList r h2 h14)⟩

/-- `cardKey` is injective on canonical cards. -/
theorem cardKey_inj_canonical {a b : Card} (ha : canonicalCard a) (hb : canonicalCard b)
    (hk : cardKey a = cardKey b) : a = b :=
  List.inj_on_of_nodup_map deck54_keys_nodup
    (mem_deck54_of_canonical a ha) (mem_deck54_of_canonical b hb) hk

/-- The output of `normalizeCard` is canonical. -/
theorem normalizeCard_canonical {c c' : Card} (h : normalizeCard c = some c') :
    canonicalCard c' := by
  unfold normalizeCard at h
  by_cases hs : c.s = "J"
  · rw [if_pos hs] at h
    by_cases hj : c.j = "BJ" ∨ c.j = "SJ"
    · rw [if_pos hj] at h
      injection h with h
      subst h
      rcases hj with hj | hj <;> rw [hj] <;> simp only [canonicalCard] <;> decide
    · rw [if_neg hj] at h
      cases h
  · rw [if_neg hs] at h
    split_ifs at h with hcond
    · obtain ⟨h2, h14, hsu⟩ := hcond
      injection h with h
      subst h
      unfold canonicalCard normalizeCard
      rw [if_neg hs, if_pos ⟨h2, h14, hsu⟩]

/-- A card produced by binding `normalizeCard` over an optional card is
canonical. -/
theorem canonical_of_bind {o : Option Card} {c : Card}
    (h : o.bind normalizeCard = some c) : canonicalCard c := by
  cases o with
  | none => cases h
  | some oc => exact normalizeCard_canonical h

/-- The cards recovered from a fully-normalized section are canonical. -/
theorem canonical_of_map_eq (l : List (Option Card)) (cs : List Card)
    (hmap : l.map (fun o => o.bind normalizeCard) = cs.map some) :
    ∀ c ∈ cs, canonicalCard c := by
  intro c hc
  have hmem : some c ∈ cs.map some := List.mem_map_of_mem some hc
  rw [← hmap, List.mem_map] at hmem
  obtain ⟨o, _, hoc⟩ := hmem
  exact canonical_of_bind hoc

/-- A list of optional cards with no empty entry is its own compaction. -/
theorem no_none_eq (l : List (Option Card))
    (h : l.any (fun o => o.isNone) = false) : l = (l.filterMap id).map some := by
  induction l with
  | nil => rfl
  | cons o t ih =>
    simp only [List.any_cons, Bool.or_eq_false_iff] at h
    obtain ⟨h1, h2⟩ := h
    cases o with
    | none => cases h1
    | some a =>
      show some a :: t = (a :: t.filterMap id).map some
      rw [List.map_cons, ← ih h2]

/-- Compacting a fully-defined list of optional cards recovers the cards. -/
theorem filterMap_id_map_some (l : List Card) : (l.map some).filterMap id = l := by
  induction l with
  | nil => rfl
  | cons a t ih =>
    show a :: (t.map some).filterMap id = a :: t
    rw [ih]

/-- A fully-defined list of optional cards has no empty entry. -/
theorem any_isNone_map_some (l : List Card) :
    (l.map some).any (fun o => o.isNone) = false := by
  induction l with
  | nil => rfl
  | cons a t ih => simp [List.any_cons, ih]

/-- Keeping every duplicate is the same as having none. -/
theorem dedup_length_eq_iff (l : List String) :
    l.dedup.length = l.length ↔ l.Nodup := by
  constructor
  · intro h
    exact List.dedup_eq_self.mp ((List.dedup_sublist l).eq_of_length h)
  · intro h
    rw [List.dedup_eq_self.mpr h]

/-- If `validateSubmission` accepts, the Submission invariant holds. -/
theorem validate_ok_sound (c9 : List Card) (sub : RawSubmission) (dc : Card)
    (h m t : List Card) (hcan : ∀ c ∈ c9, canonicalCard c)
    (hok : validateSubmission (some c9) sub = .ok dc h m t) :
    SubmissionInvariant c9 sub := by
  unfold validateSubmission at hok
  dsimp only at hok
  by_cases h9 : c9.length ≠ 9
  · rw [if_pos h9] at hok
    cases hok
  · rw [if_neg h9] at hok
    cases hdc : sub.dealerCard.bind normalizeCard with
    | none =>
      simp only [hdc] at hok
      cases hok
    | some dc' =>
      simp only [hdc] at hok
      split_ifs at hok with hl hn hd hm2
      injection hok with e1 e2 e3 e4
      subst e1
      subst e2
      subst e3
      subst e4
      obtain ⟨hl2, hl3, hl4⟩ := hl
      simp only [Bool.not_eq_true] at hn
      rw [List.any_append, List.any_append, Bool.or_eq_false_iff,
        Bool.or_eq_false_iff] at hn
      obtain ⟨⟨hnh, hnm⟩, hnt⟩ := hn
      have hdup := (dedup_length_eq_iff _).mp (not_ne_iff.mp hd)
      have hall := List.all_eq_true.mp hm2
      have hheq := no_none_eq _ hnh
      have hmeq := no_none_eq _ hnm
      have hteq := no_none_eq _ hnt
      refine ⟨dc', (sub.head.map (fun o => o.bind normalizeCard)).filterMap id,
        (sub.mid.map (fun o => o.bind normalizeCard)).filterMap id,
        (sub.tail.map (fun o => o.bind normalizeCard)).filterMap id,
        hdc, hheq, hmeq, hteq, ?_, ?_, ?_, ?_, ?_⟩
      · rw [hheq, List.length_map] at hl2
        exact hl2
      · rw [hmeq, List.length_map] at hl3
        exact hl3
      · rw [hteq, List.length_map] at hl4
        exact hl4
      · exact List.Nodup.of_map cardKey hdup
      · intro c hc
        have hkc : cardKey c ∈ c9.map cardKey :=
          of_decide_eq_true (hall (cardKey c) (List.mem_map_of_mem cardKey hc))
        rw [List.mem_map] at hkc
        obtain ⟨c2, hc2, hk2⟩ := hkc
        have hccan : canonicalCard c := by
          rcases List.mem_cons.mp hc with rfl | hc
          · exact canonical_of_bind hdc
          · rcases List.mem_append.mp hc with hc | hc
            · rcases List.mem_append.mp hc with hc | hc
              · exact canonical_of_map_eq _ _ hheq c hc
              · exact canonical_of_map_eq _ _ hmeq c hc
            · exact canonical_of_map_eq _ _ hteq c hc
        rw [← cardKey_inj_canonical (hcan c2 hc2) hccan hk2]
        exact hc2

/-- If the Submission invariant holds, `validateSubmission` accepts. -/
theorem validate_ok_complete (c9 : List Card) (sub : RawSubmission)
    (hlen : c9.length = 9) (hinv : SubmissionInvariant c9 sub) :
    ∃ dc h m t, validateSubmission (some c9) sub = .ok dc h m t := by
  obtain ⟨dc, h, m, t, hdc, hh, hm, ht, hlh, hlm, hlt, hnd, hmem⟩ := hinv
  refine ⟨dc, h, m, t, ?_⟩
  unfold validateSubmission
  dsimp only
  rw [if_neg (by rw [hlen]; exact not_ne_iff.mpr rfl)]
  simp only [hdc]
  rw [hh, hm, ht]
  have hcans : ∀ c ∈ dc :: (h ++ m ++ t), canonicalCard c := by
    intro c hc
    rcases List.mem_cons.mp hc with rfl | hc
    · exact canonical_of_bind hdc
    · rcases List.mem_append.mp hc with hc | hc
      · rcases List.mem_append.mp hc with hc | hc
        · exact canonical_of_map_eq _ _ hh c hc
        · exact canonical_of_map_eq _ _ hm c hc
      · exact canonical_of_map_eq _ _ ht c hc
  rw [if_neg (not_not.mpr ⟨by rw [List.length_map]; exact hlh,
    by rw [List.length_map]; exact hlm, by rw [List.length_map]; exact hlt⟩)]
  have hany : ((h.map some ++ m.map some) ++ t.map some).any
      (fun c => c.isNone) = false := by
    rw [← List.map_append, ← List.map_append]
    exact any_isNone_map_some _
  rw [if_neg (by simp [hany])]
  rw [filterMap_id_map_some, filterMap_id_map_some, filterMap_id_map_some]
  have hused : ((dc :: (h ++ m ++ t)).map cardKey).Nodup :=
    List.Nodup.map_on
      (fun x hx y hy hxy =>
        cardKey_inj_canonical (hcans x hx) (hcans y hy) hxy) hnd
  rw [if_neg (not_ne_iff.mpr ((dedup_length_eq_iff _).mpr hused))]
  have hallm : ((dc :: (h ++ m ++ t)).map cardKey).all
      (fun k => k ∈ c9.map cardKey) = true := by
    rw [List.all_eq_true]
    intro k hk
    rw [List.mem_map] at hk
    obtain ⟨c, hc, rfl⟩ := hk
    exact decide_eq_true (List.mem_map_of_mem cardKey (hmem c hc))
  rw [if_neg (not_not.mpr hallm)]

/-- C8: over a canonical dealt nine, a submission is accepted exactly when
it satisfies the Submission invariant; a rejected submission mutates
nothing and echoes a single error message back to the sender only. -/
theorem c8_submission_validation (c9 : List Card) (sub : RawSubmission)
    (subsmap : List (String × Submission)) (sender report : String)
    (hlen : c9.length = 9)
    (hcan : ∀ c ∈ c9, canonicalCard c) :
    ((∃ dc h m t, validateSubmission (some c9) sub = .ok dc h m t) ↔
      SubmissionInvariant c9 sub) ∧
    ∀ msg, validateSubmission (some c9) sub = .fail msg →
      submitStep (some c9) subsmap sender sub report = (subsmap, [(sender, msg)]) := by
  constructor
  · constructor
    · rintro ⟨dc, h, m, t, hok⟩
      exact validate_ok_sound c9 sub dc h m t hcan hok
    · intro hinv
      exact validate_ok_complete c9 sub hlen hinv
  · intro msg hmsg
    unfold submitStep
    rw [hmsg]

/-- Witness for the C8 theorem: a payload with no dealer-selection card is
rejected over a concrete canonical nine, leaving the submissions map
untouched and messaging only the sender. -/
theorem c8_witness :
    c9wit.length = 9 ∧
    submitStep (some c9wit) [] "p1" rawBad "none" =
      ([], [("p1", "請選擇選莊牌")]) := by
  refine ⟨by decide, ?_⟩
  exact (c8_submission_validation c9wit rawBad [] "p1" "none"
    (by decide) (by simp only [canonicalCard]; decide)).2 "請選擇選莊牌" (by decide)

/-! ## C7: joker substitution optimality -/

/-- Two-card evaluation never yields a negative category. -/
theorem eval2NoJoker_cat_nonneg (cards : List Card) : 0 ≤ (eval2NoJoker cards).cat := by
  unfold eval2NoJoker
  dsimp only
  split_ifs <;> simp

/-- The three-card core never yields a negative category. -/
theorem eval3Core_cat_nonneg (ranks : List Int) (fl : Bool) :
    0 ≤ (eval3Core ranks fl).cat := by
  unfold eval3Core
  dsimp only
  split_ifs <;> simp

/-- Three-card evaluation never yields a negative category. -/
theorem eval3NoJoker_cat_nonneg (cards : List Card) : 0 ≤ (eval3NoJoker cards).cat :=
  eval3Core_cat_nonneg _ _

/-- Over a nonempty list of completed hands, the best-so-far fold starting
from the sentinel is attained by one of the hands. -/
theorem jokerBest_spec (f : List Card → Ev) (hcat : ∀ l, 0 ≤ (f l).cat)
    (hands : List (List Card)) (hne : hands ≠ []) :
    ∃ hd ∈ hands, bestFold f hands sentinelEv = f hd := by
  rcases bestFold_cases f hands sentinelEv with h | h
  · exfalso
    cases hands with
    | nil => exact hne rfl
    | cons h0 tl =>
      have hb := bestFold_le f (h0 :: tl) sentinelEv h0 (List.mem_cons_self _ _)
      rw [h] at hb
      have hc := hcat h0
      unfold compareEval sentinelEv at hb
      dsimp only at hb
      rw [if_pos (by omega)] at hb
      omega
  · exact h

/-- Any not-yet-used rank/suit combination is a candidate replacement. -/
theorem mem_fullCandidates (base : List Card) (r : Int) (s : String)
    (hr : r ∈ rankList) (hs : s ∈ SUITS)
    (hk : toString r ++ s ∉ base.map cardKey) :
    (⟨r, s, ""⟩ : Card) ∈ fullCandidates base := by
  unfold fullCandidates
  rw [List.mem_flatMap]
  refine ⟨s, hs, ?_⟩
  rw [List.mem_filterMap]
  refine ⟨r, hr, ?_⟩
  rw [if_neg hk]

/-- A base of at most two cards leaves at least one candidate replacement. -/
theorem exists_candidate (base : List Card) (hb : base.length ≤ 2) :
    ∃ x, x ∈ fullCandidates base := by
  by_cases h2 : (toString (2 : Int) ++ "S") ∈ base.map cardKey
  · by_cases h3 : (toString (3 : Int) ++ "S") ∈ base.map cardKey
    · by_cases h4 : (toString (4 : Int) ++ "S") ∈ base.map cardKey
      · exfalso
        have hsub : [toString (2 : Int) ++ "S", toString (3 : Int) ++ "S",
            toString (4 : Int) ++ "S"] ⊆ base.map cardKey :=
          List.cons_subset.mpr ⟨h2, List.cons_subset.mpr ⟨h3,
            List.cons_subset.mpr ⟨h4, List.nil_subset _⟩⟩⟩
        have hlen := (List.subperm_of_subset (by decide) hsub).length_le
        simp only [List.length_cons, List.length_nil, List.length_map] at hlen
        omega
      · exact ⟨_, mem_fullCandidates base 4 "S" (by decide) (by decide) h4⟩
    · exact ⟨_, mem_fullCandidates base 3 "S" (by decide) (by decide) h3⟩
  · exact ⟨_, mem_fullCandidates base 2 "S" (by decide) (by decide) h2⟩

/-- A base of at most one card leaves at least two distinct candidates. -/
theorem exists_two_candidates (base : List Card) (hb : base.length ≤ 1) :
    ∃ x y, x ∈ fullCandidates base ∧ y ∈ fullCandidates base ∧ x ≠ y := by
  by_cases h2 : (toString (2 : Int) ++ "S") ∈ base.map cardKey
  · have h3 : (toString (3 : Int) ++ "S") ∉ base.map cardKey := by
      intro h3
      have hsub : [toString (2 : Int) ++ "S", toString (3 : Int) ++ "S"] ⊆
          base.map cardKey :=
        List.cons_subset.mpr ⟨h2, List.cons_subset.mpr ⟨h3, List.nil_subset _⟩⟩
      have hlen := (List.subperm_of_subset (by decide) hsub).length_le
      simp only [List.length_cons, List.length_nil, List.length_map] at hlen
      omega
    have h4 : (toString (4 : Int) ++ "S") ∉ base.map cardKey := by
      intro h4
      have hsub : [toString (2 : Int) ++ "S", toString (4 : Int) ++ "S"] ⊆
          base.map cardKey :=
        List.cons_subset.mpr ⟨h2, List.cons_subset.mpr ⟨h4, List.nil_subset _⟩⟩
      have hlen := (List.subperm_of_subset (by decide) hsub).length_le
      simp only [List.length_cons, List.length_nil, List.length_map] at hlen
      omega
    exact ⟨_, _, mem_fullCandidates base 3 "S" (by decide) (by decide) h3,
      mem_fullCandidates base 4 "S" (by decide) (by decide) h4, by decide⟩
  · by_cases h3 : (toString (3 : Int) ++ "S") ∈ base.map cardKey
    · have h4 : (toString (4 : Int) ++ "S") ∉ base.map cardKey := by
        intro h4
        have hsub : [toString (3 : Int) ++ "S", toString (4 : Int) ++ "S"] ⊆
            base.map cardKey :=
          List.cons_subset.mpr ⟨h3, List.cons_subset.mpr ⟨h4, List.nil_subset _⟩⟩
        have hlen := (List.subperm_of_subset (by decide) hsub).length_le
        simp only [List.length_cons, List.length_nil, List.length_map] at hlen
        omega
      exact ⟨_, _, mem_fullCandidates base 2 "S" (by decide) (by decide) h2,
        mem_fullCandidates base 4 "S" (by decide) (by decide) h4, by decide⟩
    · exact ⟨_, _, mem_fullCandidates base 2 "S" (by decide) (by decide) h2,
        mem_fullCandidates base 3 "S" (by decide) (by decide) h3, by decide⟩

/-- Every candidate yields a tried one-joker completion. -/
theorem mem_oneJokerHands (base full : List Card) (c : Card) (hc : c ∈ full) :
    base ++ [c] ∈ oneJokerHands base full :=
  List.mem_map_of_mem _ hc

/-- Every unordered pair of distinct listed candidates yields a tried
two-joker completion, in one of the two orders. -/
theorem twoJokerHands_pair (base : List Card) :
    ∀ (l : List Card) (x y : Card), x ∈ l → y ∈ l → x ≠ y →
      base ++ [x, y] ∈ twoJokerHands base l ∨
      base ++ [y, x] ∈ twoJokerHands base l := by
  intro l
  induction l with
  | nil => intro x y hx _ _; cases hx
  | cons z zs ih =>
    intro x y hx hy hxy
    rcases List.mem_cons.mp hx with hx1 | hx2
    · have hy' : y ∈ zs := by
        rcases List.mem_cons.mp hy with hy1 | hy2
        · rw [hx1, hy1] at hxy
          exact absurd rfl hxy
        · exact hy2
      left
      simp only [twoJokerHands]
      rw [hx1]
      exact List.mem_append_left _ (List.mem_map_of_mem _ hy')
    · rcases List.mem_cons.mp hy with hy1 | hy2
      · right
        simp only [twoJokerHands]
        rw [hy1]
        exact List.mem_append_left _ (List.mem_map_of_mem _ hx2)
      · rcases ih x y hx2 hy2 hxy with h | h
        · left
          simp only [twoJokerHands]
          exact List.mem_append_right _ h
        · right
          simp only [twoJokerHands]
          exact List.mem_append_right _ h

/-- The joker and non-joker cards of a hand partition its length. -/
theorem filter_not_length (cards : List Card) :
    (cards.filter (fun c => ¬ c.s = "J")).length +
      (cards.filter (fun c => c.s = "J")).length = cards.length := by
  induction cards with
  | nil => rfl
  | cons c t ih =>
    simp only [List.filter_cons, List.length_cons]
    by_cases hc : c.s = "J"
    · have d1 : (decide (¬ c.s = "J")) = false := by simp [hc]
      have d2 : (decide (c.s = "J")) = true := by simp [hc]
      rw [d1, d2]
      simp only [Bool.false_eq_true, if_false, if_true, List.length_cons]
      omega
    · have d1 : (decide (¬ c.s = "J")) = true := by simp [hc]
      have d2 : (decide (c.s = "J")) = false := by simp [hc]
      rw [d1, d2]
      simp only [Bool.false_eq_true, if_false, if_true, List.length_cons]
      omega

/-- For a two- or three-card hand holding one or two jokers, the joker
search tries at least one completion. -/
theorem jhands_ne (cards : List Card)
    (hj : jcount cards = 1 ∨ jcount cards = 2)
    (hlen : cards.length = 2 ∨ cards.length = 3) :
    jhands cards ≠ [] := by
  have hb := filter_not_length cards
  rcases hj with hj | hj
  · have hbl : (jbase cards).length ≤ 2 := by
      unfold jbase
      unfold jcount at hj
      rcases hlen with hl | hl <;> omega
    obtain ⟨x, hx⟩ := exists_candidate (jbase cards) hbl
    unfold jhands subHands
    rw [hj, if_pos rfl]
    exact List.ne_nil_of_mem (mem_oneJokerHands _ _ x hx)
  · have hbl : (jbase cards).length ≤ 1 := by
      unfold jbase
      unfold jcount at hj
      rcases hlen with hl | hl <;> omega
    obtain ⟨x, y, hx, hy, hxy⟩ := exists_two_candidates (jbase cards) hbl
    unfold jhands subHands
    rw [hj, if_neg (by decide)]
    rcases twoJokerHands_pair (jbase cards) (fullCandidates (jbase cards)) x y hx hy hxy
      with h | h
    · exact List.ne_nil_of_mem h
    · exact List.ne_nil_of_mem h

/-- Reduction of `eval2` on a hand holding jokers. -/
theorem eval2_joker_red (cards : List Card)
    (hjne : ¬ (cards.filter (fun c => c.s = "J")).length = 0) :
    eval2 cards =
      { cat := (bestFold eval2NoJoker (jhands cards) sentinelEv).cat,
        t := (bestFold eval2NoJoker (jhands cards) sentinelEv).t,
        name := (bestFold eval2NoJoker (jhands cards) sentinelEv).name,
        usedJoker := true } := by
  unfold eval2
  dsimp only
  rw [if_neg hjne]
  rfl

/-- Reduction of `eval3` on a hand holding jokers. -/
theorem eval3_joker_red (cards : List Card)
    (hjne : ¬ (cards.filter (fun c => c.s = "J")).length = 0) :
    eval3 cards =
      { cat := (bestFold eval3NoJoker (jhands cards) sentinelEv).cat,
        t := (bestFold eval3NoJoker (jhands cards) sentinelEv).t,
        name := (bestFold eval3NoJoker (jhands cards) sentinelEv).name,
        usedJoker := true } := by
  unfold eval3
  dsimp only
  rw [if_neg hjne]
  rfl

/-- C7: on a two- or three-card hand holding one or two jokers, both
evaluators flag `usedJoker`, return a result at least as good (under
`compareEval`) as every tried completion, attain one of the tried
completions, and the tried completions cover every substitution of the
jokers by fresh rank/suit combinations. -/
theorem c7_joker_optimal (cards : List Card)
    (hj : jcount cards = 1 ∨ jcount cards = 2)
    (hlen : cards.length = 2 ∨ cards.length = 3) :
    (eval2 cards).usedJoker = true ∧ (eval3 cards).usedJoker = true ∧
    (∀ hd ∈ jhands cards,
      compareEval (eval2NoJoker hd) (eval2 cards) ≤ 0 ∧
      compareEval (eval3NoJoker hd) (eval3 cards) ≤ 0) ∧
    (∃ hd ∈ jhands cards,
      (eval2 cards).cat = (eval2NoJoker hd).cat ∧
      (eval2 cards).t = (eval2NoJoker hd).t ∧
      (eval2 cards).name = (eval2NoJoker hd).name) ∧
    (∃ hd ∈ jhands cards,
      (eval3 cards).cat = (eval3NoJoker hd).cat ∧
      (eval3 cards).t = (eval3NoJoker hd).t ∧
      (eval3 cards).name = (eval3NoJoker hd).name) ∧
    (jcount cards = 1 → ∀ r s, r ∈ rankList → s ∈ SUITS →
      toString r ++ s ∉ (jbase cards).map cardKey →
      jbase cards ++ [⟨r, s, ""⟩] ∈ jhands cards) ∧
    (jcount cards = 2 → ∀ x y, x ∈ fullCandidates (jbase cards) →
      y ∈ fullCandidates (jbase cards) → x ≠ y →
      jbase cards ++ [x, y] ∈ jhands cards ∨
      jbase cards ++ [y, x] ∈ jhands cards) := by
  have hjne : ¬ (cards.filter (fun c => c.s = "J")).length = 0 := by
    unfold jcount at hj
    rcases hj with h | h <;> omega
  have h2red := eval2_joker_red cards hjne
  have h3red := eval3_joker_red cards hjne
  have hne := jhands_ne cards hj hlen
  refine ⟨by rw [h2red], by rw [h3red], ?_, ?_, ?_, ?_, ?_⟩
  · intro hd hhd
    constructor
    · rw [h2red]
      show compareEval (eval2NoJoker hd)
        (bestFold eval2NoJoker (jhands cards) sentinelEv) ≤ 0
      exact bestFold_le eval2NoJoker (jhands cards) sentinelEv hd hhd
    · rw [h3red]
      show compareEval (eval3NoJoker hd)
        (bestFold eval3NoJoker (jhands cards) sentinelEv) ≤ 0
      exact bestFold_le eval3NoJoker (jhands cards) sentinelEv hd hhd
  · obtain ⟨hd, hhd, heq⟩ := jokerBest_spec eval2NoJoker eval2NoJoker_cat_nonneg
      (jhands cards) hne
    exact ⟨hd, hhd, by rw [h2red, heq], by rw [h2red, heq], by rw [h2red, heq]⟩
  · obtain ⟨hd, hhd, heq⟩ := jokerBest_spec eval3NoJoker eval3NoJoker_cat_nonneg
      (jhands cards) hne
    exact ⟨hd, hhd, by rw [h3red, heq], by rw [h3red, heq], by rw [h3red, heq]⟩
  · intro h1 r s hr hs hk
    unfold jhands subHands
    rw [h1, if_pos rfl]
    exact mem_oneJokerHands _ _ _ (mem_fullCandidates _ r s hr hs hk)
  · intro h2 x y hx hy hxy
    unfold jhands subHands
    rw [h2, if_neg (by decide)]
    exact twoJokerHands_pair _ _ x y hx hy hxy

/-- Witness for the C7 theorem: a suited 5-6 plus the big joker. -/
theorem c7_witness :
    (jcount [⟨5, "H", ""⟩, ⟨6, "H", ""⟩, ⟨16, "J", "BJ"⟩] = 1 ∨
      jcount [⟨5, "H", ""⟩, ⟨6, "H", ""⟩, ⟨16, "J", "BJ"⟩] = 2) ∧
    (eval3 [⟨5, "H", ""⟩, ⟨6, "H", ""⟩, ⟨16, "J", "BJ"⟩]).usedJoker = true ∧
    (eval2 [⟨5, "H", ""⟩, ⟨6, "H", ""⟩, ⟨16, "J", "BJ"⟩]).usedJoker = true := by
  refine ⟨by decide, ?_, ?_⟩
  · exact (c7_joker_optimal [⟨5, "H", ""⟩, ⟨6, "H", ""⟩, ⟨16, "J", "BJ"⟩]
      (by decide) (by decide)).2.1
  · exact (c7_joker_optimal [⟨5, "H", ""⟩, ⟨6, "H", ""⟩, ⟨16, "J", "BJ"⟩]
      (by decide) (by decide)).1

/-- Witness for the C3 theorem: Q-K-A of spades is a straight flush whose
run value is recorded as 15. -/
theorem c3_witness :
    ((2 ≤ (12 : Int) ∧ (12 : Int) ≤ 14) ∧ ("S" : String) ∈ SUITS) ∧
    (eval3NoJoker [⟨12, "S", ""⟩, ⟨13, "S", ""⟩, ⟨14, "S", ""⟩]).cat = 5 ∧
    (eval3NoJoker [⟨12, "S", ""⟩, ⟨13, "S", ""⟩, ⟨14, "S", ""⟩]).t = [15] := by
  refine ⟨⟨by decide, by decide⟩, ?_, ?_⟩
  · have h := c3_eval3_category_table 12 13 14 "S" "S" "S"
      (by decide) (by decide) (by decide) (by decide) (by decide) (by decide)
    rw [h.1]
    decide
  · have h := c3_eval3_category_table 12 13 14 "S" "S" "S"
      (by decide) (by decide) (by decide) (by decide) (by decide) (by decide)
    rw [h.2.1 (by decide)]
    decide

end HKE9
